import Mathlib

/-!
# hermes1d: mesh, degree-of-freedom numbering and solution sampling

A shallow embedding of `src/mesh.cpp` (`Mesh::create`, `Mesh::set_poly_orders`,
`Mesh::assign_dofs`, `Linearizer::eval_approx`, `Mesh::set_dirichlet_bc_left/right`).

Modelling conventions.

* `double` is modelled by `ℚ` (exact arithmetic); nothing below speaks about rounding.
* `int` is modelled by `Int` without wrap-around: every counter of `assign_dofs` is bounded
  by the number of allocated dof slots.
* Heap arrays are lists.  A read or write outside an array, or through a `NULL` pointer, has
  no defined continuation in C++; the embedding makes it an explicit `Failure`, so every
  function returns `Except Failure _`.
* A pointer `this->vertices + i` is modelled by the index `i`.
* `mesh.h` (the class declarations) is not part of the sources: the fields of `Mesh` and
  `Element` are the ones `mesh.cpp` reads and writes, and the per-equation boundary records
  (arrays of unknown size) are total functions of the equation index.
-/

namespace Hermes1d

/-- Ways a call can end without returning normally.  `nullDeref` and `outOfBounds` are invalid
memory accesses, `badArrayLength` is an array `new` with a negative length.
`configurationError` is the error kind of the specification (a reported usage error); it is
listed so that statements about it can be written down, but no function of `mesh.cpp`
raises it: the source contains no check, `throw`, `exit` or error return. -/
inductive Failure where
  | nullDeref
  | outOfBounds
  | badArrayLength
  | configurationError
  deriving DecidableEq, Repr

/-- A mesh vertex: `struct Vertex { double x; }`. -/
structure Vertex where
  x : ℚ
  deriving DecidableEq

/-- A mesh element: polynomial degree `p`, the two vertex pointers `v1`, `v2` (as indices into
`Mesh.vertices`) and the dof array `dof` (`none` is the `NULL` pointer). -/
structure Element where
  p : Int
  v1 : Nat
  v2 : Nat
  dof : Option (List Int)
  deriving DecidableEq

/-- The fields of `class Mesh` used by `mesh.cpp`. -/
structure Mesh where
  n_elem : Int
  vertices : List Vertex
  elems : List Element
  dir_bc_left_active : Nat → Int
  dir_bc_left_values : Nat → ℚ
  dir_bc_right_active : Nat → Int
  dir_bc_right_values : Nat → ℚ
  n_dof : Int

/-- The read `a[i]` of a heap array with an `int` index. -/
def readAt {α : Type} (a : List α) (i : Int) : Except Failure α :=
  if i < 0 then .error .outOfBounds
  else match a[i.toNat]? with
    | some x => .ok x
    | none => .error .outOfBounds

/-- The write `a[i] = x` of a heap array with an `int` index. -/
def writeAt {α : Type} (a : List α) (i : Int) (x : α) : Except Failure (List α) :=
  if 0 ≤ i ∧ i.toNat < a.length then .ok (a.set i.toNat x) else .error .outOfBounds

/-- The expression `new T[k]`, every cell holding `init i`: it fails for a negative length. -/
def newArray {α : Type} (k : Int) (init : Nat → α) : Except Failure (List α) :=
  if k < 0 then .error .badArrayLength else .ok ((List.range k.toNat).map init)

/-- A counted loop `for (int i = lo; i < hi; i++) body`, whose body changes neither `i` nor
the bound: the body runs for `i = lo, lo+1, ..., hi-1` (not at all when `hi ≤ lo`) and a
failure of the body ends the loop. -/
def forRange {σ : Type} (lo : Nat) (hi : Int) (body : Nat → σ → Except Failure σ) (s : σ) :
    Except Failure σ :=
  (List.range' lo (hi - lo).toNat).foldlM (fun s i => body i s) s

/-- The assignment `elems[i].dof[j] = v`. -/
def Mesh.writeDof (self : Mesh) (i j : Int) (v : Int) : Except Failure Mesh := do
  let e ← readAt self.elems i
  match e.dof with
  | none => .error .nullDeref
  | some d => do
    let d ← writeAt d j v
    let es ← writeAt self.elems i { e with dof := some d }
    pure { self with elems := es }

/-- `Mesh::create(A, B, n_elem)` (mesh.cpp 3-18), run on the object `self`.  The cells of the
two fresh arrays are uninitialised in C++; the fillers below stand for them and every cell is
overwritten by the loop that follows its allocation. -/
def create (A B : ℚ) (n_elem : Int) (self : Mesh) : Except Failure Mesh := do
  let self := { self with n_elem := n_elem }
  let vertices ← newArray (n_elem + 1) (fun _ => ({ x := 0 } : Vertex))
  let h : ℚ := (B - A) / (n_elem : ℚ)
  let vertices ← forRange 0 (n_elem + 1) (fun i vs => do
      let v ← readAt vs i
      writeAt vs i { v with x := A + (i : ℚ) * h }) vertices
  let self := { self with vertices := vertices }
  let elems ← newArray n_elem (fun _ => ({ p := 0, v1 := 0, v2 := 0, dof := none } : Element))
  let elems ← forRange 0 n_elem (fun i es => do
      let e ← readAt es i
      writeAt es i { e with p := -1, v1 := i, v2 := i + 1, dof := none }) elems
  pure { self with elems := elems }

/-- `Mesh::set_poly_orders(poly_order)` (mesh.cpp 20-26).  `new int[poly_order+1]` leaves the
cells uninitialised; `junk i j` is the value cell `j` of element `i` happens to hold. -/
def set_poly_orders (poly_order : Int) (junk : Nat → Nat → Int) (self : Mesh) :
    Except Failure Mesh := do
  let es ← forRange 0 self.n_elem (fun i es => do
      let e ← readAt es i
      let d ← newArray (poly_order + 1) (junk i)
      writeAt es i { e with p := poly_order, dof := some d }) self.elems
  pure { self with elems := es }

/-- Body of the interior vertex loop of `assign_dofs` (mesh.cpp 42-46); the state is the mesh
and the running `count`. -/
def vertexBody (i : Nat) (s : Mesh × Int) : Except Failure (Mesh × Int) := do
  let m ← s.1.writeDof i 0 s.2
  let count := s.2 + 1
  let m ← m.writeDof i 1 count
  pure (m, count)

/-- Body of the inner bubble loop of `assign_dofs` (mesh.cpp 57-60). -/
def bubbleBody (i j : Nat) (s : Mesh × Int) : Except Failure (Mesh × Int) := do
  let m ← s.1.writeDof i j s.2
  pure (m, s.2 + 1)

/-- One round of the outer bubble loop (mesh.cpp 56-61): `for (j = 2; j <= elems[i].p; j++)`.
The bound `elems[i].p` is read once, the body does not change it. -/
def bubbleElem (i : Nat) (s : Mesh × Int) : Except Failure (Mesh × Int) := do
  let e ← readAt s.1.elems i
  forRange 2 (e.p + 1) (bubbleBody i) s

/-- Part (a) of `assign_dofs`, the left end (mesh.cpp 34-41). -/
def assignLeft (self : Mesh) : Except Failure (Mesh × Int) := do
  let s ← (if self.dir_bc_left_active 0 ≠ 0 then do
      let m ← self.writeDof 0 0 (-1)
      pure (m, (0 : Int))
    else do
      let m ← self.writeDof 0 0 0
      pure (m, (1 : Int)))
  let m ← s.1.writeDof 0 1 s.2
  pure (m, s.2)

/-- Part (a) of `assign_dofs`, the right end (mesh.cpp 47-54). -/
def assignRight (s : Mesh × Int) : Except Failure (Mesh × Int) := do
  let m ← s.1.writeDof (s.1.n_elem - 1) 0 s.2
  let count := s.2 + 1
  if m.dir_bc_right_active 0 ≠ 0 then do
    let m ← m.writeDof (m.n_elem - 1) 1 (-1)
    pure (m, count)
  else do
    let m ← m.writeDof (m.n_elem - 1) 1 count
    pure (m, count + 1)

/-- `Mesh::assign_dofs()` (mesh.cpp 28-62); the debug printing is left out. -/
def assign_dofs (self : Mesh) : Except Failure Mesh := do
  let s ← assignLeft self
  let s ← forRange 1 (s.1.n_elem - 1) vertexBody s
  let s ← assignRight s
  let s ← forRange 0 s.1.n_elem bubbleElem s
  pure { s.1 with n_dof := s.2 }

/-- Part (a) of `assign_dofs` on its own (mesh.cpp 34-54), the vertex pass: it returns the mesh
and the value of `count` at the comment `(b) enumerate bubble dofs`. -/
def vertexPass (self : Mesh) : Except Failure (Mesh × Int) := do
  let s ← assignLeft self
  let s ← forRange 1 (s.1.n_elem - 1) vertexBody s
  assignRight s

/-- `Mesh::set_dirichlet_bc_left(eq_n, val)` (mesh.cpp 109-113); `eq_n` is an index into the
per-equation arrays. -/
def set_dirichlet_bc_left (eq_n : Nat) (val : ℚ) (self : Mesh) : Mesh :=
  { self with
    dir_bc_left_active := Function.update self.dir_bc_left_active eq_n 1
    dir_bc_left_values := Function.update self.dir_bc_left_values eq_n val }

/-- `Mesh::set_dirichlet_bc_right(eq_n, val)` (mesh.cpp 115-119). -/
def set_dirichlet_bc_right (eq_n : Nat) (val : ℚ) (self : Mesh) : Mesh :=
  { self with
    dir_bc_right_active := Function.update self.dir_bc_right_active eq_n 1
    dir_bc_right_values := Function.update self.dir_bc_right_values eq_n val }

/-- The `Linearizer` object: it holds the mesh it samples. -/
structure Linearizer where
  mesh : Mesh

/-- The read `e->dof[i]`. -/
def Element.readDof (e : Element) (i : Int) : Except Failure Int :=
  match e.dof with
  | none => .error .nullDeref
  | some d => readAt d i

/-- Body of the summation loop of `eval_approx` (mesh.cpp 83-85). -/
def evalBody (lobatto_fn_tab_1d : Nat → ℚ → ℚ) (e : Element) (x_ref : ℚ) (y : List ℚ)
    (i : Nat) (val : ℚ) : Except Failure ℚ := do
  let d ← e.readDof i
  if d ≥ 0 then do
    let yd ← readAt y d
    pure (val + yd * lobatto_fn_tab_1d i x_ref)
  else pure val

/-- `Linearizer::eval_approx(e, x_ref, y, x_phys, val)` (mesh.cpp 81-90); the two output
parameters are returned as the pair `(x_phys, val)`.  The table of shape functions
`lobatto_fn_tab_1d` (lobatto.h, not part of the sources) is a parameter. -/
def Linearizer.eval_approx (self : Linearizer) (lobatto_fn_tab_1d : Nat → ℚ → ℚ) (e : Element)
    (x_ref : ℚ) (y : List ℚ) : Except Failure (ℚ × ℚ) := do
  let val ← forRange 0 (e.p + 1) (evalBody lobatto_fn_tab_1d e x_ref y) 0
  let v1 ← readAt self.mesh.vertices e.v1
  let v2 ← readAt self.mesh.vertices e.v2
  let a := v1.x
  let b := v2.x
  let x_phys := (a + b) / 2 + x_ref * (b - a) / 2
  pure (x_phys, val)

/-! ## Vocabulary of the statements -/

/-- The value of `elems[i].dof[j]`, when that cell exists. -/
def Mesh.dofAt (m : Mesh) (i j : Nat) : Option Int :=
  match m.elems[i]? with
  | some e => match e.dof with
    | some d => d[j]?
    | none => none
  | none => none

/-- The degree `elems[i].p` (0 outside the element array). -/
def Mesh.deg (m : Mesh) (i : Nat) : Int :=
  match m.elems[i]? with
  | some e => e.p
  | none => 0

/-- The mesh after a successful assignment `elems[i].dof[j] = v`. -/
def Mesh.setDof (m : Mesh) (i j : Nat) (v : Int) : Mesh :=
  match m.elems[i]? with
  | some e => match e.dof with
    | some d => { m with elems := m.elems.set i { e with dof := some (d.set j v) } }
    | none => m
  | none => m

/-- An element with the contents of its dof array blanked: what `assign_dofs` leaves alone. -/
def Element.shape (e : Element) : Element :=
  { e with dof := e.dof.map (fun d => List.replicate d.length 0) }

/-- A mesh with all dof contents and `n_dof` blanked: what `assign_dofs` leaves alone. -/
def Mesh.shape (m : Mesh) : Mesh :=
  { m with elems := m.elems.map Element.shape, n_dof := 0 }

/-- An element ready for numbering: degree at least 1 and a dof array of `p + 1` cells. -/
def Element.wf (e : Element) : Prop :=
  1 ≤ e.p ∧ e.dof.map (fun d => (d.length : Int)) = some (e.p + 1)

instance (e : Element) : Decidable e.wf := by
  unfold Element.wf
  exact inferInstance

/-- A mesh ready for numbering: `n_elem ≥ 1` elements, each of them ready. -/
def Mesh.wf (m : Mesh) : Prop :=
  1 ≤ m.n_elem ∧ (m.elems.length : Int) = m.n_elem ∧ ∀ e ∈ m.elems, e.wf

instance (m : Mesh) : Decidable m.wf := by
  unfold Mesh.wf
  exact inferInstance

/-- The value `eval_approx` accumulates for a dof array `d`: the sum over the local indices `j`
with `d[j] ≥ 0` of `y[d[j]] * lobatto_fn_tab_1d[j](x_ref)`. -/
def evalSum (lobatto_fn_tab_1d : Nat → ℚ → ℚ) (d : List Int) (x_ref : ℚ) (y : List ℚ) : ℚ :=
  ∑ j in Finset.range d.length,
    if 0 ≤ d.getD j 0 then y.getD (d.getD j 0).toNat 0 * lobatto_fn_tab_1d j x_ref else 0

/-- Whether a Dirichlet condition is active for equation 0 on the left: the test
`if (this->dir_bc_left_active[0])`. -/
def Mesh.leftDir (m : Mesh) : Prop := m.dir_bc_left_active 0 ≠ 0

instance (m : Mesh) : Decidable m.leftDir := by
  unfold Mesh.leftDir
  exact inferInstance

/-- Whether a Dirichlet condition is active for equation 0 on the right. -/
def Mesh.rightDir (m : Mesh) : Prop := m.dir_bc_right_active 0 ≠ 0

instance (m : Mesh) : Decidable m.rightDir := by
  unfold Mesh.rightDir
  exact inferInstance

/-- Number of bubble functions of the elements before element `i`: `∑ k < i, (p_k - 1)`. -/
def Mesh.bubblesBefore (m : Mesh) (i : Nat) : Int :=
  ∑ k in Finset.range i, (m.deg k - 1)

/-- Value of `count` when the interior vertex loop of `assign_dofs` ends. -/
def Mesh.countInner (m : Mesh) : Int :=
  (if m.leftDir then 0 else 1) + ((m.n_elem - 2).toNat : Int)

/-- Value of `count` when part (a) of `assign_dofs` ends. -/
def Mesh.countVertex (m : Mesh) : Int :=
  m.countInner + 1 + (if m.rightDir then 0 else 1)

/-- The value `assign_dofs` leaves in `elems[i].dof[j]`, in closed form. -/
def Mesh.finalDof (m : Mesh) (i j : Nat) : Int :=
  if j = 0 then
    if (i : Int) + 1 = m.n_elem then m.countInner
    else if i = 0 then (if m.leftDir then -1 else 0)
    else (if m.leftDir then 0 else 1) + (i : Int) - 1
  else if j = 1 then
    if (i : Int) + 1 = m.n_elem then (if m.rightDir then -1 else m.countInner + 1)
    else (if m.leftDir then 0 else 1) + (i : Int)
  else m.countVertex + m.bubblesBefore i + ((j : Int) - 2)

/-- The value `assign_dofs` leaves in `n_dof`, in closed form. -/
def Mesh.finalNDof (m : Mesh) : Int :=
  m.countVertex + m.bubblesBefore m.elems.length

/-- The four boundary-condition calls of the `system` driver (examples/system/main.cpp 113-116):
`set_bc_left_dirichlet(0, 0); set_bc_left_dirichlet(0, 1); set_bc_right_dirichlet(0, 0);
set_bc_right_dirichlet(0, 1)`.  The driver's `set_bc_left_dirichlet(eq, val)` is the method
mesh.cpp defines under the name `set_dirichlet_bc_left(eq_n, val)`, and likewise on the
right. -/
def systemBoundaryCalls (mesh : Mesh) : Mesh :=
  set_dirichlet_bc_right 0 1
    (set_dirichlet_bc_right 0 0 (set_dirichlet_bc_left 0 1 (set_dirichlet_bc_left 0 0 mesh)))

/-- A mesh object on which no method has run yet, all boundary records cleared.  The
constructor is declared in `mesh.h`, which is not part of the sources; the general statements
below hold for every initial object and this one serves as the concrete example. -/
def Mesh.blank : Mesh :=
  { n_elem := 0, vertices := [], elems := [],
    dir_bc_left_active := fun _ => 0, dir_bc_left_values := fun _ => 0,
    dir_bc_right_active := fun _ => 0, dir_bc_right_values := fun _ => 0, n_dof := 0 }

/-- The calls `create(0, 1, n); set_poly_orders(p); assign_dofs()` on a fresh object, with
`set_dirichlet_bc_left(0, 0)` and/or `set_dirichlet_bc_right(0, 0)` before `assign_dofs` when
`left` / `right` are set. -/
def numbered (n p : Int) (left right : Bool) : Except Failure Mesh := do
  let m ← create 0 1 n Mesh.blank
  let m ← set_poly_orders p (fun _ _ => 0) m
  let m := if left then set_dirichlet_bc_left 0 0 m else m
  let m := if right then set_dirichlet_bc_right 0 0 m else m
  assign_dofs m

instance {α : Type} [DecidableEq α] : DecidableEq (Except Failure α) := fun a b =>
  match a, b with
  | .ok x, .ok y =>
    if h : x = y then isTrue (by rw [h]) else isFalse (fun h' => h (Except.ok.inj h'))
  | .error e, .error f =>
    if h : e = f then isTrue (by rw [h]) else isFalse (fun h' => h (Except.error.inj h'))
  | .ok _, .error _ => isFalse (fun h => Except.noConfusion h)
  | .error _, .ok _ => isFalse (fun h => Except.noConfusion h)

/-- What a run shows of the numbering: `n_dof` and the dof array of every element, or the
failure that ended the run. -/
def numbering (r : Except Failure Mesh) : Except Failure (Int × List (Option (List Int))) :=
  r.map (fun m => (m.n_dof, m.elems.map Element.dof))

/-- What a run shows of the elements: `n_elem` and the element array, or the failure that
ended the run. -/
def layout (r : Except Failure Mesh) : Except Failure (Int × List Element) :=
  r.map (fun m => (m.n_elem, m.elems))

/-- A table of shape functions with the endpoint values the specification asks of
`lobatto_fn_tab_1d` (the two linear vertex functions, then bubbles `(1 - x²)·x^(j-2)`); it
serves as example input where the real table, which is not part of the sources, is a
parameter. -/
def sampleBasis (j : Nat) (x : ℚ) : ℚ :=
  if j = 0 then (1 - x) / 2 else if j = 1 then (1 + x) / 2 else (1 - x * x) * x ^ (j - 2)

/-- The mesh of three cubic elements on `[0, 3]` as `create` and `set_poly_orders(3)` leave it
(the element count and degree of the `laplace_bc_newton2` example), no Dirichlet condition. -/
def cubicMesh : Mesh :=
  { Mesh.blank with
    n_elem := 3
    vertices := [⟨0⟩, ⟨1⟩, ⟨2⟩, ⟨3⟩]
    elems := [⟨3, 0, 1, some [0, 0, 0, 0]⟩, ⟨3, 1, 2, some [0, 0, 0, 0]⟩,
      ⟨3, 2, 3, some [0, 0, 0, 0]⟩] }

/-- The mesh of three cubic elements with other boundary records: Dirichlet conditions for
equation 1 at both ends (values 5 and 7), the records of equation 0 as before. -/
def otherRecords : Mesh :=
  set_dirichlet_bc_left 1 5 (set_dirichlet_bc_right 1 7 cubicMesh)

/-- Body of the inner loop of `plot_solution` (mesh.cpp 100-104) for the element `m` and the
step `h`; the state is the list of the lines written so far, a line being the pair
`(x_phys, val)` that `fprintf` prints. -/
def plotBody (self : Linearizer) (lobatto_fn_tab_1d : Nat → ℚ → ℚ) (y_prev : List ℚ) (h : ℚ)
    (m i : Nat) (out : List (ℚ × ℚ)) : Except Failure (List (ℚ × ℚ)) := do
  let x_ref : ℚ := -1 + (i : ℚ) * h
  let e ← readAt self.mesh.elems m
  let line ← self.eval_approx lobatto_fn_tab_1d e x_ref y_prev
  pure (out ++ [line])

/-- `Linearizer::plot_solution(out_filename, y_prev, plotting_elem_subdivision)` (mesh.cpp
92-107).  The output file is modelled by the list of its lines, in the order they are
written; `get_elems()` and `get_n_elems()` (mesh.h, not part of the sources) are read as the
fields `elems` and `n_elem`. -/
def Linearizer.plot_solution (self : Linearizer) (lobatto_fn_tab_1d : Nat → ℚ → ℚ)
    (y_prev : List ℚ) (plotting_elem_subdivision : Int) : Except Failure (List (ℚ × ℚ)) :=
  forRange 0 self.mesh.n_elem (fun m out =>
    let h : ℚ := 2 / (plotting_elem_subdivision : ℚ)
    forRange 0 (plotting_elem_subdivision + 1) (plotBody self lobatto_fn_tab_1d y_prev h m)
      out) []

/-- An element that `eval_approx` can sample with the coefficient vector `y`: its two vertex
pointers are inside the vertex array, its dof array has `p + 1` cells and every value in it is
below the length of `y`. -/
def Element.samplable (vertices : List Vertex) (y : List ℚ) (e : Element) : Prop :=
  e.v1 < vertices.length ∧ e.v2 < vertices.length ∧
    e.dof.map (fun d => (d.length : Int)) = some (e.p + 1) ∧
    ∀ g ∈ e.dof.getD [], g < (y.length : Int)

instance (vertices : List Vertex) (y : List ℚ) (e : Element) :
    Decidable (e.samplable vertices y) := by
  unfold Element.samplable
  exact inferInstance

/-- A mesh that `plot_solution` can sample with the coefficient vector `y`: the element array
has `n_elem` cells and every element can be sampled. -/
def Linearizer.samplable (self : Linearizer) (y : List ℚ) : Prop :=
  (self.mesh.elems.length : Int) = self.mesh.n_elem ∧
    ∀ e ∈ self.mesh.elems, e.samplable self.mesh.vertices y

instance (l : Linearizer) (y : List ℚ) : Decidable (l.samplable y) := by
  unfold Linearizer.samplable
  exact inferInstance

/-- The mesh of three cubic elements after `assign_dofs`, no Dirichlet condition. -/
def cubicNumbered : Mesh :=
  { cubicMesh with
    elems := [⟨3, 0, 1, some [0, 1, 4, 5]⟩, ⟨3, 1, 2, some [1, 2, 6, 7]⟩,
      ⟨3, 2, 3, some [2, 3, 8, 9]⟩]
    n_dof := 10 }

/-- What one line `r` of the plot is when it is the sample of element `m` at step `i` of `s`:
the result of `eval_approx` on that element at the reference coordinate `-1 + 2*i/s`, whose
`x` is the point `v1 + (i/s)*(v2 - v1)` of the element. -/
def IsSample (l : Linearizer) (lob : Nat → ℚ → ℚ) (y : List ℚ) (s m i : Nat)
    (r : Option (ℚ × ℚ)) : Prop :=
  ∃ e a b x v, l.mesh.elems[m]? = some e ∧ l.mesh.vertices[e.v1]? = some a ∧
    l.mesh.vertices[e.v2]? = some b ∧
    l.eval_approx lob e (-1 + 2 * (i : ℚ) / (s : ℚ)) y = .ok (x, v) ∧ r = some (x, v) ∧
    x = a.x + (i : ℚ) / (s : ℚ) * (b.x - a.x) ∧ (i = 0 → x = a.x) ∧ (i = s → x = b.x)

/-- The loop `for(int i=0; i<N_dof; i++) res_norm += res[i]*res[i]` of the drivers; a vector
`double[N_dof]` is a function on `Fin N_dof`. -/
def sumSquares {N : Nat} (res : Fin N → ℚ) : ℚ :=
  ∑ i, res i * res i

/-- The Newton loop `while (1) { ... }` of the example drivers (laplace_bc_newton2/main.cpp
147-194, system/main.cpp 142-170, system_sin/main.cpp 137-170), with `fuel` bounding the number
of passes: `none` means the loop is still running when the fuel is spent.  The state is
`(y_prev, res, newton_iterations)`, and it is returned at a `break`.

The collaborators are parameters: `assemble res y_prev` is
`dp.assemble_matrix_and_vector(mat, res, y_prev)` on a fresh matrix (it returns the matrix and
the new contents of `res`), `solve mat res` is the linear solver (it returns the new contents
of `res`), `sqrt` is the library square root.  `debugExit` is the test of the extra `break`
that system_sin has before the tolerance test (`if(newton_iterations == 2) break;`); the two
other drivers have none. -/
def newtonLoop {M : Type} {N : Nat} (assemble : (Fin N → ℚ) → (Fin N → ℚ) → M × (Fin N → ℚ))
    (solve : M → (Fin N → ℚ) → (Fin N → ℚ)) (sqrt : ℚ → ℚ) (TOL : ℚ) (debugExit : Nat → Bool) :
    Nat → (Fin N → ℚ) × (Fin N → ℚ) × Nat → Option ((Fin N → ℚ) × (Fin N → ℚ) × Nat)
  | 0, _ => none
  | fuel + 1, (y_prev, res, newton_iterations) =>
    let mat := (assemble res y_prev).1
    let res := (assemble res y_prev).2
    let res_norm := sqrt (sumSquares res)
    if debugExit newton_iterations then some (y_prev, res, newton_iterations)
    else if res_norm < TOL then some (y_prev, res, newton_iterations)
    else
      let res := fun i => res i * (-1)
      let res := solve mat res
      let y_prev := fun i => y_prev i + res i
      newtonLoop assemble solve sqrt TOL debugExit fuel (y_prev, res, newton_iterations + 1)

/-- The Newton loop of `laplace_bc_newton2` with its initialisation: `y_prev` is zero,
`newton_iterations` is 0 and `res` holds whatever `new double[N_dof]` left in it. -/
def laplace_bc_newton2_newton {M : Type} {N : Nat}
    (assemble : (Fin N → ℚ) → (Fin N → ℚ) → M × (Fin N → ℚ))
    (solve : M → (Fin N → ℚ) → (Fin N → ℚ)) (sqrt : ℚ → ℚ) (TOL : ℚ) (junk : Fin N → ℚ)
    (fuel : Nat) : Option ((Fin N → ℚ) × (Fin N → ℚ) × Nat) :=
  newtonLoop assemble solve sqrt TOL (fun _ => false) fuel (fun _ => 0, junk, 0)

/-- The Newton loop of `system` with its initialisation. -/
def system_newton {M : Type} {N : Nat}
    (assemble : (Fin N → ℚ) → (Fin N → ℚ) → M × (Fin N → ℚ))
    (solve : M → (Fin N → ℚ) → (Fin N → ℚ)) (sqrt : ℚ → ℚ) (TOL : ℚ) (junk : Fin N → ℚ)
    (fuel : Nat) : Option ((Fin N → ℚ) × (Fin N → ℚ) × Nat) :=
  newtonLoop assemble solve sqrt TOL (fun _ => false) fuel (fun _ => 0, junk, 0)

/-- The Newton loop of `system_sin` with its initialisation; it has the extra exit
`if(newton_iterations == 2) break;`. -/
def system_sin_newton {M : Type} {N : Nat}
    (assemble : (Fin N → ℚ) → (Fin N → ℚ) → M × (Fin N → ℚ))
    (solve : M → (Fin N → ℚ) → (Fin N → ℚ)) (sqrt : ℚ → ℚ) (TOL : ℚ) (junk : Fin N → ℚ)
    (fuel : Nat) : Option ((Fin N → ℚ) × (Fin N → ℚ) × Nat) :=
  newtonLoop assemble solve sqrt TOL (fun k => k == 2) fuel (fun _ => 0, junk, 0)

/-- An assembler whose residual is 1 at every iterate (one unknown), with the solver that
leaves the right-hand side as it is: an example of collaborators that never converge. -/
def stuckAssemble (_res _y_prev : Fin 1 → ℚ) : Unit × (Fin 1 → ℚ) :=
  ((), fun _ => 1)

/-- An assembler whose residual is zero at every iterate (one unknown). -/
def zeroAssemble (_res _y_prev : Fin 1 → ℚ) : Unit × (Fin 1 → ℚ) :=
  ((), fun _ => 0)

/-- An affine assembler for one unknown: the Jacobian is the identity and the residual is
`F(y) = 1*y - 1`. -/
def unitAssemble (_res y_prev : Fin 1 → ℚ) : Matrix (Fin 1) (Fin 1) ℚ × (Fin 1 → ℚ) :=
  ((1 : Matrix (Fin 1) (Fin 1) ℚ),
    Matrix.mulVec (1 : Matrix (Fin 1) (Fin 1) ℚ) y_prev - fun _ => 1)

/-- The exact solver of systems whose matrix is the identity. -/
def unitSolve (_mat : Matrix (Fin 1) (Fin 1) ℚ) (res : Fin 1 → ℚ) : Fin 1 → ℚ :=
  res

/-! ## Memory accesses -/

theorem readAt_nat {α : Type} (a : List α) (i : Nat) (x : α) (h : a[i]? = some x) :
    readAt a (i : Int) = .ok x := by
  simp [readAt, h]

theorem writeAt_nat {α : Type} (a : List α) (i : Nat) (x : α) (h : i < a.length) :
    writeAt a (i : Int) x = .ok (a.set i x) := by
  simp [writeAt, h]

theorem writeDof_eq (m : Mesh) (i j : Nat) (v : Int) (h : (m.dofAt i j).isSome) :
    m.writeDof (i : Int) (j : Int) v = .ok (m.setDof i j v) := by
  unfold Mesh.dofAt at h
  unfold Mesh.writeDof Mesh.setDof
  cases he : m.elems[i]? with
  | none => simp [he] at h
  | some e =>
    cases hd : e.dof with
    | none => simp [he, hd] at h
    | some d =>
      simp only [he, hd] at h
      have hj : j < d.length := by
        rcases Option.isSome_iff_exists.mp h with ⟨x, hx⟩
        exact (List.getElem?_eq_some_iff.mp hx).1
      have hi : i < m.elems.length := (List.getElem?_eq_some_iff.mp he).1
      simp [readAt_nat _ _ _ he, hd, writeAt_nat _ _ _ hj, writeAt_nat _ _ _ hi, bind,
        Except.bind, pure, Except.pure]

theorem setDof_some (m : Mesh) (i j : Nat) (v : Int) (e : Element) (d : List Int)
    (he : m.elems[i]? = some e) (hd : e.dof = some d) :
    m.setDof i j v = { m with elems := m.elems.set i { e with dof := some (d.set j v) } } := by
  simp only [Mesh.setDof, he, hd]

theorem setDof_noCell (m : Mesh) (i j : Nat) (v : Int) (h : m.dofAt i j = none) :
    (m.setDof i j v).dofAt i j = none ∧ ((m.setDof i j v).shape = m.shape) ∧
      ∀ a b, (a ≠ i ∨ b ≠ j) → (m.setDof i j v).dofAt a b = m.dofAt a b := by
  cases he : m.elems[i]? with
  | none =>
    have : m.setDof i j v = m := by simp only [Mesh.setDof, he]
    rw [this]
    exact ⟨h, rfl, fun _ _ _ => rfl⟩
  | some e =>
    cases hd : e.dof with
    | none =>
      have : m.setDof i j v = m := by simp only [Mesh.setDof, he, hd]
      rw [this]
      exact ⟨h, rfl, fun _ _ _ => rfl⟩
    | some d =>
      have hi : i < m.elems.length := (List.getElem?_eq_some_iff.mp he).1
      have hj : d[j]? = none := by simpa [Mesh.dofAt, he, hd] using h
      have hset : d.set j v = d := by
        apply List.ext_getElem?
        intro k
        by_cases hk : j = k
        · subst hk
          simp [List.getElem?_set, hj]
          exact List.getElem?_eq_none_iff.mp hj
        · simp [List.getElem?_set, hk]
      have hm : m.setDof i j v = m := by
        rw [setDof_some m i j v e d he hd, hset]
        have : m.elems.set i { e with dof := some d } = m.elems := by
          have hget : m.elems[i] = e := (List.getElem?_eq_some_iff.mp he).2
          have : ({ e with dof := some d } : Element) = e := by
            cases e
            simp_all
          rw [this]
          apply List.ext_getElem?
          intro k
          by_cases hk : i = k
          · subst hk
            simp [List.getElem?_set, hi, he]
          · simp [List.getElem?_set, hk]
        rw [this]
      rw [hm]
      exact ⟨h, rfl, fun _ _ _ => rfl⟩

theorem dofAt_setDof (m : Mesh) (i j : Nat) (v : Int) (a b : Nat) :
    (m.setDof i j v).dofAt a b =
      if a = i ∧ b = j then (m.dofAt i j).map (fun _ => v) else m.dofAt a b := by
  cases hc : m.dofAt i j with
  | none =>
    obtain ⟨h1, _, h3⟩ := setDof_noCell m i j v hc
    by_cases h : a = i ∧ b = j
    · obtain ⟨rfl, rfl⟩ := h
      simp [h1]
    · rw [if_neg h]
      exact h3 a b (by tauto)
  | some x =>
    cases he : m.elems[i]? with
    | none => simp [Mesh.dofAt, he] at hc
    | some e =>
      cases hd : e.dof with
      | none => simp [Mesh.dofAt, he, hd] at hc
      | some d =>
        have hi : i < m.elems.length := (List.getElem?_eq_some_iff.mp he).1
        have hj : j < d.length := by
          have : d[j]? = some x := by simpa [Mesh.dofAt, he, hd] using hc
          exact (List.getElem?_eq_some_iff.mp this).1
        rw [setDof_some m i j v e d he hd]
        by_cases hai : a = i
        · subst hai
          by_cases hbj : b = j
          · subst hbj
            simp [Mesh.dofAt, List.getElem?_set, hi, hj]
          · have hbj2 : ¬ j = b := fun h => hbj h.symm
            simp [Mesh.dofAt, he, hd, List.getElem?_set, hi, hbj, hbj2]
        · have hai2 : ¬ i = a := fun h => hai h.symm
          simp [Mesh.dofAt, List.getElem?_set, hai, hai2]

theorem shape_setDof (m : Mesh) (i j : Nat) (v : Int) : (m.setDof i j v).shape = m.shape := by
  cases he : m.elems[i]? with
  | none =>
    have : m.setDof i j v = m := by simp only [Mesh.setDof, he]
    rw [this]
  | some e =>
    cases hd : e.dof with
    | none =>
      have : m.setDof i j v = m := by simp only [Mesh.setDof, he, hd]
      rw [this]
    | some d =>
      have hi : i < m.elems.length := (List.getElem?_eq_some_iff.mp he).1
      have hget : m.elems[i] = e := (List.getElem?_eq_some_iff.mp he).2
      rw [setDof_some m i j v e d he hd]
      simp only [Mesh.shape]
      congr 1
      apply List.ext_getElem?
      intro k
      by_cases hk : i = k
      · subst hk
        simp [List.getElem?_set, hi, hget, Element.shape, hd]
      · simp [List.getElem?_set, hk]

/-! ## What the shape of a mesh determines -/

theorem shape_elem (m m' : Mesh) (h : m'.shape = m.shape) (i : Nat) :
    (m'.elems[i]?).map Element.shape = (m.elems[i]?).map Element.shape := by
  have h1 : m'.elems.map Element.shape = m.elems.map Element.shape := congrArg Mesh.elems h
  have h2 := congrArg (fun l => l[i]?) h1
  simpa [List.getElem?_map] using h2

theorem shape_n_elem (m m' : Mesh) (h : m'.shape = m.shape) : m'.n_elem = m.n_elem := by
  have h1 := congrArg Mesh.n_elem h
  exact h1

theorem shape_length (m m' : Mesh) (h : m'.shape = m.shape) :
    m'.elems.length = m.elems.length := by
  have h1 : m'.elems.map Element.shape = m.elems.map Element.shape := congrArg Mesh.elems h
  simpa using congrArg List.length h1

theorem shape_leftDir (m m' : Mesh) (h : m'.shape = m.shape) : m'.leftDir ↔ m.leftDir := by
  have : m'.dir_bc_left_active = m.dir_bc_left_active := by
    have h1 := congrArg Mesh.dir_bc_left_active h
    exact h1
  simp [Mesh.leftDir, this]

theorem shape_rightDir (m m' : Mesh) (h : m'.shape = m.shape) : m'.rightDir ↔ m.rightDir := by
  have : m'.dir_bc_right_active = m.dir_bc_right_active := by
    have h1 := congrArg Mesh.dir_bc_right_active h
    exact h1
  simp [Mesh.rightDir, this]

theorem shape_deg (m m' : Mesh) (h : m'.shape = m.shape) (i : Nat) : m'.deg i = m.deg i := by
  have h1 := shape_elem m m' h i
  unfold Mesh.deg
  cases h' : m'.elems[i]? with
  | none =>
    cases h0 : m.elems[i]? with
    | none => rfl
    | some e => simp [h', h0] at h1
  | some e' =>
    cases h0 : m.elems[i]? with
    | none => simp [h', h0] at h1
    | some e =>
      simp only [h', h0, Option.map_some', Option.some.injEq] at h1
      have h2 := congrArg Element.p h1
      exact h2

theorem shape_cell (m m' : Mesh) (h : m'.shape = m.shape) (i j : Nat) :
    (m'.dofAt i j).isSome = (m.dofAt i j).isSome := by
  have h1 := shape_elem m m' h i
  cases h' : m'.elems[i]? with
  | none =>
    cases h0 : m.elems[i]? with
    | none => simp only [Mesh.dofAt, h', h0]
    | some e => simp [h', h0] at h1
  | some e' =>
    cases h0 : m.elems[i]? with
    | none => simp [h', h0] at h1
    | some e =>
      simp only [h', h0, Option.map_some', Option.some.injEq] at h1
      have h2 : e'.dof.map (fun d => List.replicate d.length (0 : Int)) =
          e.dof.map (fun d => List.replicate d.length (0 : Int)) := by
        have h3 := congrArg Element.dof h1
        exact h3
      cases hd' : e'.dof with
      | none =>
        cases hd : e.dof with
        | none => simp only [Mesh.dofAt, h', h0, hd', hd]
        | some d => simp [hd', hd] at h2
      | some d' =>
        cases hd : e.dof with
        | none => simp [hd', hd] at h2
        | some d =>
          simp only [hd', hd, Option.map_some', Option.some.injEq] at h2
          have hl : d'.length = d.length := by simpa using congrArg List.length h2
          simp only [Mesh.dofAt, h', h0, hd', hd]
          by_cases hj : j < d.length
          · simp [List.getElem?_eq_getElem, hj, hl]
          · simp [List.getElem?_eq_none, Nat.le_of_not_lt hj, hl]

theorem wf_cell (m : Mesh) (hwf : m.wf) (i j : Nat) (hi : i < m.elems.length)
    (hj : (j : Int) ≤ m.deg i) : (m.dofAt i j).isSome = true := by
  obtain ⟨_, _, hall⟩ := hwf
  have he : m.elems[i]? = some m.elems[i] := List.getElem?_eq_getElem hi
  have hw := hall m.elems[i] (List.getElem_mem hi)
  obtain ⟨_, hd⟩ := hw
  simp only [Mesh.deg, he] at hj
  simp only [Mesh.dofAt, he]
  cases hdof : (m.elems[i]).dof with
  | none => simp [hdof] at hd
  | some d =>
    simp only [hdof, Option.map_some', Option.some.injEq] at hd
    have : j < d.length := by omega
    simp [List.getElem?_eq_getElem, this]

theorem wf_deg (m : Mesh) (hwf : m.wf) (i : Nat) (hi : i < m.elems.length) : 1 ≤ m.deg i := by
  obtain ⟨_, _, hall⟩ := hwf
  have he : m.elems[i]? = some m.elems[i] := List.getElem?_eq_getElem hi
  simp only [Mesh.deg, he]
  exact (hall m.elems[i] (List.getElem_mem hi)).1

/-- A cell of a mesh that has the shape of a well-formed mesh can be written. -/
theorem writeDof_shape (m0 m : Mesh) (hwf : m0.wf) (h : m.shape = m0.shape) (i j : Nat)
    (v : Int) (hi : i < m0.elems.length) (hj : (j : Int) ≤ m0.deg i) :
    m.writeDof (i : Int) (j : Int) v = .ok (m.setDof i j v) := by
  apply writeDof_eq
  rw [shape_cell m0 m h]
  exact wf_cell m0 hwf i j hi hj

/-! ## Counted loops -/

theorem forRange_ge {σ : Type} (lo : Nat) (hi : Int) (body : Nat → σ → Except Failure σ)
    (s : σ) (h : hi ≤ (lo : Int)) : forRange lo hi body s = .ok s := by
  have : (hi - (lo : Int)).toNat = 0 := by omega
  simp [forRange, this, pure, Except.pure]

theorem forRange_step {σ : Type} (lo : Nat) (hi : Int) (body : Nat → σ → Except Failure σ)
    (s : σ) (h : (lo : Int) < hi) :
    forRange lo hi body s = body lo s >>= forRange (lo + 1) hi body := by
  obtain ⟨k, hk⟩ : ∃ k, (hi - (lo : Int)).toNat = k + 1 := ⟨(hi - (lo : Int)).toNat - 1, by omega⟩
  have hk2 : (hi - ((lo + 1 : Nat) : Int)).toNat = k := by omega
  unfold forRange
  rw [hk, hk2, List.range'_succ, List.foldlM_cons]

/-- Invariant rule for a counted loop whose body never fails while the invariant holds. -/
theorem forRange_inv {σ : Type} (Inv : Nat → σ → Prop) (hi : Nat)
    (body : Nat → σ → Except Failure σ)
    (hstep : ∀ i s, i < hi → Inv i s → ∃ s', body i s = .ok s' ∧ Inv (i + 1) s')
    (lo : Nat) (s : σ) (h0 : Inv lo s) :
    ∃ s', forRange lo (hi : Int) body s = .ok s' ∧ Inv (max lo hi) s' := by
  obtain ⟨k, hk⟩ : ∃ k, hi - lo = k := ⟨_, rfl⟩
  induction k generalizing lo s with
  | zero =>
    have hle : hi ≤ lo := by omega
    rw [max_eq_left hle]
    exact ⟨s, forRange_ge _ _ _ _ (by exact_mod_cast hle), h0⟩
  | succ k ih =>
    have hlt : lo < hi := by omega
    obtain ⟨s1, hb, hinv⟩ := hstep lo s hlt h0
    obtain ⟨s2, hr, hinv2⟩ := ih (lo + 1) s1 hinv (by omega)
    have e1 : max (lo + 1) hi = hi := max_eq_right (by omega)
    have e2 : max lo hi = hi := max_eq_right (by omega)
    rw [e1] at hinv2
    rw [e2]
    refine ⟨s2, ?_, hinv2⟩
    rw [forRange_step _ _ _ _ (by exact_mod_cast hlt), hb]
    exact hr

/-! ## The phases of `assign_dofs` -/

theorem wf_length (m : Mesh) (hwf : m.wf) : 1 ≤ m.elems.length ∧
    (m.elems.length : Int) = m.n_elem := by
  obtain ⟨h1, h2, _⟩ := hwf
  exact ⟨by omega, h2⟩

theorem assignLeft_spec (m0 : Mesh) (hwf : m0.wf) :
    ∃ m1, assignLeft m0 = .ok (m1, if m0.leftDir then 0 else 1) ∧ m1.shape = m0.shape ∧
      ∀ a b, m1.dofAt a b =
        if a = 0 ∧ b = 1 then some (if m0.leftDir then 0 else 1)
        else if a = 0 ∧ b = 0 then some (if m0.leftDir then -1 else 0)
        else m0.dofAt a b := by
  obtain ⟨hN, _⟩ := wf_length m0 hwf
  have hdeg := wf_deg m0 hwf 0 (by omega)
  have hc0 := wf_cell m0 hwf 0 0 (by omega) (by omega)
  have hc1 := wf_cell m0 hwf 0 1 (by omega) (by exact_mod_cast hdeg)
  have w0 : ∀ v, m0.writeDof 0 0 v = .ok (m0.setDof 0 0 v) := fun v => by
    have := writeDof_eq m0 0 0 v hc0
    simpa using this
  have w1 : ∀ v w, (m0.setDof 0 0 v).writeDof 0 1 w = .ok ((m0.setDof 0 0 v).setDof 0 1 w) :=
    fun v w => by
      have := writeDof_eq (m0.setDof 0 0 v) 0 1 w
        (by rw [shape_cell m0 _ (shape_setDof m0 0 0 v)]; exact hc1)
      simpa using this
  obtain ⟨x0, hx0⟩ := Option.isSome_iff_exists.mp hc0
  obtain ⟨x1, hx1⟩ := Option.isSome_iff_exists.mp hc1
  by_cases hl : m0.leftDir
  · refine ⟨(m0.setDof 0 0 (-1)).setDof 0 1 0, ?_, ?_, ?_⟩
    · have hl' : m0.dir_bc_left_active 0 ≠ 0 := hl
      simp [assignLeft, hl, hl', w0, w1, bind, Except.bind, pure, Except.pure]
    · rw [shape_setDof, shape_setDof]
    · intro a b
      rw [dofAt_setDof, dofAt_setDof, dofAt_setDof]
      simp only [hl, if_true, hx0, hx1]
      split_ifs <;> simp_all
  · refine ⟨(m0.setDof 0 0 0).setDof 0 1 1, ?_, ?_, ?_⟩
    · have hl' : ¬ m0.dir_bc_left_active 0 ≠ 0 := hl
      simp only [ne_eq, not_not] at hl'
      simp [assignLeft, hl, hl', w0, w1, bind, Except.bind, pure, Except.pure]
    · rw [shape_setDof, shape_setDof]
    · intro a b
      rw [dofAt_setDof, dofAt_setDof, dofAt_setDof]
      simp only [hl, if_false, hx0, hx1]
      split_ifs <;> simp_all

theorem vertexLoop_spec (m0 m1 : Mesh) (hwf : m0.wf) (h1 : m1.shape = m0.shape) (c : Int) :
    ∃ m2, forRange 1 (m1.n_elem - 1) vertexBody (m1, c) =
        .ok (m2, c + ((m0.n_elem - 2).toNat : Int)) ∧ m2.shape = m0.shape ∧
      ∀ a b, m2.dofAt a b =
        if 1 ≤ a ∧ (a : Int) + 1 < m0.n_elem ∧ b = 0 then some (c + (a : Int) - 1)
        else if 1 ≤ a ∧ (a : Int) + 1 < m0.n_elem ∧ b = 1 then some (c + (a : Int))
        else m1.dofAt a b := by
  obtain ⟨hN, hNe⟩ := wf_length m0 hwf
  have hn1 : m1.n_elem - 1 = ((m0.elems.length - 1 : Nat) : Int) := by
    rw [shape_n_elem m0 m1 h1]
    omega
  rw [hn1]
  obtain ⟨⟨m2, c2⟩, hrun, hinv⟩ := forRange_inv
    (fun i (s : Mesh × Int) => 1 ≤ i ∧ s.1.shape = m0.shape ∧ s.2 = c + (i : Int) - 1 ∧
      ∀ a b, s.1.dofAt a b =
        if 1 ≤ a ∧ a < i ∧ b = 0 then some (c + (a : Int) - 1)
        else if 1 ≤ a ∧ a < i ∧ b = 1 then some (c + (a : Int))
        else m1.dofAt a b)
    (m0.elems.length - 1) vertexBody
    (by
      rintro i ⟨m, k⟩ hi ⟨hi1, hsh, hk, hcells⟩
      simp only at hsh hk hcells
      have hdeg := wf_deg m0 hwf i (by omega)
      have e0 : m.writeDof (i : Int) 0 k = .ok (m.setDof i 0 k) := by
        have := writeDof_shape m0 m hwf hsh i 0 k (by omega) (by omega)
        simpa using this
      have e1 : (m.setDof i 0 k).writeDof (i : Int) 1 (k + 1) =
          .ok ((m.setDof i 0 k).setDof i 1 (k + 1)) := by
        have := writeDof_shape m0 (m.setDof i 0 k) hwf (by rw [shape_setDof]; exact hsh) i 1
          (k + 1) (by omega) (by exact_mod_cast hdeg)
        simpa using this
      refine ⟨((m.setDof i 0 k).setDof i 1 (k + 1), k + 1), ?_, by omega, ?_, ?_, ?_⟩
      · simp [vertexBody, e0, e1, bind, Except.bind, pure, Except.pure]
      · simp only [shape_setDof]
        exact hsh
      · simp only [hk]
        push_cast
        ring
      · intro a b
        have c0 := wf_cell m0 hwf i 0 (by omega) (by omega)
        have c1 := wf_cell m0 hwf i 1 (by omega) (by exact_mod_cast hdeg)
        rw [← shape_cell m0 m hsh] at c0
        rw [← shape_cell m0 (m.setDof i 0 k) (by rw [shape_setDof]; exact hsh)] at c1
        obtain ⟨x0, hx0⟩ := Option.isSome_iff_exists.mp c0
        obtain ⟨x1, hx1⟩ := Option.isSome_iff_exists.mp c1
        simp only
        rw [dofAt_setDof, hx1, dofAt_setDof, hx0, hcells a b]
        subst hk
        by_cases ha : a = i
        · subst ha
          by_cases hb0 : b = 0
          · subst hb0
            simp [hi1]
          · by_cases hb1 : b = 1
            · subst hb1
              simp [hi1]
            · simp [hb0, hb1]
        · have hlt : (a < i + 1) ↔ a < i := by omega
          simp [ha, hlt])
    1 (m1, c)
    ⟨le_refl _, h1, by simp, by
      intro a b
      have n0 : ¬ (1 ≤ a ∧ a < 1 ∧ b = 0) := by omega
      have n1 : ¬ (1 ≤ a ∧ a < 1 ∧ b = 1) := by omega
      simp only [if_neg n0, if_neg n1]⟩
  obtain ⟨_, hsh, hk, hcells⟩ := hinv
  simp only at hsh hk hcells
  refine ⟨m2, ?_, hsh, ?_⟩
  · rw [hrun, hk]
    congr 2
    have : ((max 1 (m0.elems.length - 1) : Nat) : Int) = 1 + ((m0.n_elem - 2).toNat : Int) := by
      omega
    rw [this]
    ring
  · intro a b
    rw [hcells a b]
    have hiff : (a < max 1 (m0.elems.length - 1)) ↔ (a : Int) + 1 < m0.n_elem ∨ a < 1 := by
      omega
    by_cases ha1 : 1 ≤ a
    · have hiff2 : (a < max 1 (m0.elems.length - 1)) ↔ (a : Int) + 1 < m0.n_elem := by omega
      simp only [hiff2]
    · simp [ha1]

theorem assignRight_spec (m0 m2 : Mesh) (hwf : m0.wf) (h2 : m2.shape = m0.shape) (c : Int) :
    ∃ m3, assignRight (m2, c) = .ok (m3, c + 1 + (if m0.rightDir then 0 else 1)) ∧
      m3.shape = m0.shape ∧
      ∀ a b, m3.dofAt a b =
        if (a : Int) + 1 = m0.n_elem ∧ b = 1 then some (if m0.rightDir then -1 else c + 1)
        else if (a : Int) + 1 = m0.n_elem ∧ b = 0 then some c
        else m2.dofAt a b := by
  obtain ⟨hN, hNe⟩ := wf_length m0 hwf
  obtain ⟨l, hl⟩ : ∃ l : Nat, l = m0.elems.length - 1 := ⟨_, rfl⟩
  have hlast : ∀ m : Mesh, m.shape = m0.shape → m.n_elem - 1 = (l : Int) := fun m hm => by
    rw [shape_n_elem m0 m hm]
    omega
  have hdeg := wf_deg m0 hwf l (by omega)
  have e0 : m2.writeDof (l : Int) 0 c = .ok (m2.setDof l 0 c) := by
    have := writeDof_shape m0 m2 hwf h2 l 0 c (by omega) (by omega)
    simpa using this
  have hs1 : (m2.setDof l 0 c).shape = m0.shape := by rw [shape_setDof]; exact h2
  have e1 : ∀ w, (m2.setDof l 0 c).writeDof (l : Int) 1 w =
      .ok ((m2.setDof l 0 c).setDof l 1 w) := fun w => by
    have := writeDof_shape m0 (m2.setDof l 0 c) hwf hs1 l 1 w (by omega)
      (by exact_mod_cast hdeg)
    simpa using this
  have c0 := wf_cell m0 hwf l 0 (by omega) (by omega)
  have c1 := wf_cell m0 hwf l 1 (by omega) (by exact_mod_cast hdeg)
  rw [← shape_cell m0 m2 h2] at c0
  rw [← shape_cell m0 (m2.setDof l 0 c) hs1] at c1
  obtain ⟨x0, hx0⟩ := Option.isSome_iff_exists.mp c0
  obtain ⟨x1, hx1⟩ := Option.isSome_iff_exists.mp c1
  have hal : ∀ a : Nat, ((a : Int) + 1 = m0.n_elem) ↔ a = l := fun a => by omega
  have hflag : (m2.setDof l 0 c).dir_bc_right_active 0 = m0.dir_bc_right_active 0 := by
    have h3 := congrArg Mesh.dir_bc_right_active hs1
    exact congrFun h3 0
  by_cases hr : m0.rightDir
  · have hr' : m0.dir_bc_right_active 0 ≠ 0 := hr
    refine ⟨(m2.setDof l 0 c).setDof l 1 (-1), ?_, by rw [shape_setDof]; exact hs1, ?_⟩
    · simp [assignRight, hlast m2 h2, hlast _ hs1, e0, e1, hflag, hr, hr', bind, Except.bind,
        pure, Except.pure]
    · intro a b
      rw [dofAt_setDof, hx1, dofAt_setDof, hx0]
      simp only [hal, hr, if_true, Option.map_some']
  · have hr' : m0.dir_bc_right_active 0 = 0 := by
      have : ¬ m0.dir_bc_right_active 0 ≠ 0 := hr
      simpa using this
    refine ⟨(m2.setDof l 0 c).setDof l 1 (c + 1), ?_, by rw [shape_setDof]; exact hs1, ?_⟩
    · simp [assignRight, hlast m2 h2, hlast _ hs1, e0, e1, hflag, hr, hr', bind, Except.bind,
        pure, Except.pure]
    · intro a b
      rw [dofAt_setDof, hx1, dofAt_setDof, hx0]
      simp only [hal, hr, if_false, Option.map_some']

theorem bubbleInner_spec (m0 m : Mesh) (hwf : m0.wf) (hsh : m.shape = m0.shape) (c : Int)
    (i : Nat) (hi : i < m0.elems.length) :
    ∃ m', forRange 2 (m0.deg i + 1) (bubbleBody i) (m, c) = .ok (m', c + (m0.deg i - 1)) ∧
      m'.shape = m0.shape ∧
      ∀ a b, m'.dofAt a b =
        if a = i ∧ 2 ≤ b ∧ (b : Int) ≤ m0.deg i then some (c + ((b : Int) - 2))
        else m.dofAt a b := by
  have hdeg := wf_deg m0 hwf i hi
  obtain ⟨q, hq⟩ : ∃ q : Nat, (q : Int) = m0.deg i + 1 := ⟨(m0.deg i + 1).toNat, by omega⟩
  rw [← hq]
  obtain ⟨⟨m', c'⟩, hrun, hinv⟩ := forRange_inv
    (fun j (s : Mesh × Int) => 2 ≤ j ∧ s.1.shape = m0.shape ∧ s.2 = c + ((j : Int) - 2) ∧
      ∀ a b, s.1.dofAt a b =
        if a = i ∧ 2 ≤ b ∧ b < j then some (c + ((b : Int) - 2)) else m.dofAt a b)
    q (bubbleBody i)
    (by
      rintro j ⟨mj, k⟩ hj ⟨hj2, hs, hk, hcells⟩
      simp only at hs hk hcells
      have e0 : mj.writeDof (i : Int) (j : Int) k = .ok (mj.setDof i j k) :=
        writeDof_shape m0 mj hwf hs i j k hi (by omega)
      have c0 := wf_cell m0 hwf i j hi (by omega)
      rw [← shape_cell m0 mj hs] at c0
      obtain ⟨x0, hx0⟩ := Option.isSome_iff_exists.mp c0
      refine ⟨(mj.setDof i j k, k + 1), ?_, by omega, ?_, ?_, ?_⟩
      · simp [bubbleBody, e0, bind, Except.bind, pure, Except.pure]
      · simp only [shape_setDof]
        exact hs
      · simp only [hk]
        push_cast
        ring
      · intro a b
        simp only
        rw [dofAt_setDof, hx0, hcells a b]
        subst hk
        by_cases hab : a = i ∧ b = j
        · obtain ⟨rfl, rfl⟩ := hab
          simp [hj2]
        · have hlt : (a = i ∧ 2 ≤ b ∧ b < j + 1) ↔ (a = i ∧ 2 ≤ b ∧ b < j) := by
            constructor
            · rintro ⟨h1, h2, h3⟩
              refine ⟨h1, h2, ?_⟩
              by_contra hcon
              exact hab ⟨h1, by omega⟩
            · rintro ⟨h1, h2, h3⟩
              exact ⟨h1, h2, by omega⟩
          simp only [hab, if_false, hlt])
    2 (m, c)
    ⟨le_refl _, hsh, by simp, by
      intro a b
      have n0 : ¬ (a = i ∧ 2 ≤ b ∧ b < 2) := by omega
      simp only [if_neg n0]⟩
  obtain ⟨_, hs, hk, hcells⟩ := hinv
  simp only at hs hk hcells
  have hmax : max 2 q = q := max_eq_right (by omega)
  rw [hmax] at hk hcells
  refine ⟨m', ?_, hs, ?_⟩
  · rw [hrun, hk]
    congr 2
    omega
  · intro a b
    rw [hcells a b]
    have hiff : (b < q) ↔ (b : Int) ≤ m0.deg i := by omega
    simp only [hiff]

theorem shape_readElem (m0 m : Mesh) (hsh : m.shape = m0.shape) (i : Nat)
    (hi : i < m0.elems.length) : ∃ e, readAt m.elems (i : Int) = .ok e ∧ e.p = m0.deg i := by
  have hi' : i < m.elems.length := by rw [shape_length m0 m hsh]; exact hi
  have he : m.elems[i]? = some m.elems[i] := List.getElem?_eq_getElem hi'
  refine ⟨m.elems[i], readAt_nat _ _ _ he, ?_⟩
  rw [← shape_deg m0 m hsh i]
  simp only [Mesh.deg, he]

theorem bubblesBefore_succ (m : Mesh) (i : Nat) :
    m.bubblesBefore (i + 1) = m.bubblesBefore i + (m.deg i - 1) := by
  unfold Mesh.bubblesBefore
  rw [Finset.sum_range_succ]

theorem bubbleOuter_spec (m0 m3 : Mesh) (hwf : m0.wf) (h3 : m3.shape = m0.shape) (c : Int) :
    ∃ m4, forRange 0 m3.n_elem bubbleElem (m3, c) =
        .ok (m4, c + m0.bubblesBefore m0.elems.length) ∧ m4.shape = m0.shape ∧
      ∀ a b, m4.dofAt a b =
        if a < m0.elems.length ∧ 2 ≤ b ∧ (b : Int) ≤ m0.deg a then
          some (c + m0.bubblesBefore a + ((b : Int) - 2))
        else m3.dofAt a b := by
  obtain ⟨hN, hNe⟩ := wf_length m0 hwf
  rw [shape_n_elem m0 m3 h3, ← hNe]
  obtain ⟨⟨m4, c4⟩, hrun, hinv⟩ := forRange_inv
    (fun i (s : Mesh × Int) => s.1.shape = m0.shape ∧ s.2 = c + m0.bubblesBefore i ∧
      ∀ a b, s.1.dofAt a b =
        if a < i ∧ 2 ≤ b ∧ (b : Int) ≤ m0.deg a then
          some (c + m0.bubblesBefore a + ((b : Int) - 2))
        else m3.dofAt a b)
    m0.elems.length bubbleElem
    (by
      rintro i ⟨m, k⟩ hi ⟨hs, hk, hcells⟩
      simp only at hs hk hcells
      obtain ⟨e, hread, hp⟩ := shape_readElem m0 m hs i hi
      obtain ⟨m', hrun, hs', hcells'⟩ := bubbleInner_spec m0 m hwf hs k i hi
      refine ⟨(m', k + (m0.deg i - 1)), ?_, hs', ?_, ?_⟩
      · simp only [bubbleElem, hread, bind, Except.bind, hp]
        exact hrun
      · simp only [hk, bubblesBefore_succ]
        ring
      · intro a b
        simp only
        rw [hcells' a b, hcells a b]
        subst hk
        by_cases hai : a = i
        · subst hai
          have n1 : ¬ (a < a ∧ 2 ≤ b ∧ (b : Int) ≤ m0.deg a) := by omega
          simp only [true_and, Nat.lt_succ_self, if_neg n1]
        · have hlt : (a < i + 1) ↔ a < i := by omega
          simp only [hai, false_and, if_false, hlt])
    0 (m3, c)
    ⟨h3, by simp [Mesh.bubblesBefore], by
      intro a b
      have n0 : ¬ (a < 0 ∧ 2 ≤ b ∧ (b : Int) ≤ m0.deg a) := by omega
      simp only [if_neg n0]⟩
  obtain ⟨hs, hk, hcells⟩ := hinv
  simp only at hs hk hcells
  have hmax : max 0 m0.elems.length = m0.elems.length := max_eq_right (Nat.zero_le _)
  rw [hmax] at hk hcells
  exact ⟨m4, by rw [hrun, hk], hs, hcells⟩

/-- Main characterisation: on a well-formed mesh `assign_dofs` returns, touches nothing but the
dof contents and `n_dof`, and leaves the closed-form numbering `finalDof` / `finalNDof`. -/
theorem assign_dofs_spec (m0 : Mesh) (hwf : m0.wf) :
    ∃ m', assign_dofs m0 = .ok m' ∧ m'.shape = m0.shape ∧ m'.n_dof = m0.finalNDof ∧
      ∀ i j : Nat, i < m0.elems.length → (j : Int) ≤ m0.deg i →
        m'.dofAt i j = some (m0.finalDof i j) := by
  obtain ⟨hN, hNe⟩ := wf_length m0 hwf
  obtain ⟨m1, r1, s1, d1⟩ := assignLeft_spec m0 hwf
  obtain ⟨m2, r2, s2, d2⟩ := vertexLoop_spec m0 m1 hwf s1 (if m0.leftDir then 0 else 1)
  obtain ⟨m3, r3, s3, d3⟩ := assignRight_spec m0 m2 hwf s2
    ((if m0.leftDir then 0 else 1) + ((m0.n_elem - 2).toNat : Int))
  obtain ⟨m4, r4, s4, d4⟩ := bubbleOuter_spec m0 m3 hwf s3
    ((if m0.leftDir then 0 else 1) + ((m0.n_elem - 2).toNat : Int) + 1 +
      (if m0.rightDir then 0 else 1))
  refine ⟨{ m4 with n_dof := (if m0.leftDir then 0 else 1) + ((m0.n_elem - 2).toNat : Int) + 1 +
      (if m0.rightDir then 0 else 1) + m0.bubblesBefore m0.elems.length }, ?_, ?_, ?_, ?_⟩
  · simp only [assign_dofs, r1, r2, r3, r4, bind, Except.bind, pure, Except.pure]
  · exact s4
  · simp only [Mesh.finalNDof, Mesh.countVertex, Mesh.countInner]
  · intro i j hi hj
    have hdeg := wf_deg m0 hwf i hi
    show m4.dofAt i j = _
    rw [d4 i j, d3 i j, d2 i j, d1 i j]
    obtain ⟨x, hx⟩ := Option.isSome_iff_exists.mp (wf_cell m0 hwf i j hi hj)
    rw [hx]
    unfold Mesh.finalDof Mesh.countVertex Mesh.countInner
    by_cases hj0 : j = 0
    · subst hj0
      by_cases hlast : (i : Int) + 1 = m0.n_elem
      · simp [hlast]
      · have : (i : Int) + 1 < m0.n_elem := by omega
        by_cases hi0 : i = 0
        · subst hi0
          have hl' : ¬ (1 : Int) = m0.n_elem := by simpa using hlast
          simp [hl']
        · have : 1 ≤ i := by omega
          simp [hlast, hi0, *]
    · by_cases hj1 : j = 1
      · subst hj1
        by_cases hlast : (i : Int) + 1 = m0.n_elem
        · simp [hlast]
        · have : (i : Int) + 1 < m0.n_elem := by omega
          by_cases hi0 : i = 0
          · subst hi0
            have hl' : ¬ (1 : Int) = m0.n_elem := by simpa using hlast
            simp [hl']
          · have : 1 ≤ i := by omega
            simp [hlast, hi0, *]
      · have h2 : 2 ≤ j := by omega
        simp [hj0, hj1, hi, h2, hj]

/-! ## Extensionality and invariance under the shape -/

theorem shape_wf (m m' : Mesh) (h : m'.shape = m.shape) (hwf : m.wf) : m'.wf := by
  obtain ⟨h1, h2, hall⟩ := hwf
  refine ⟨by rw [shape_n_elem m m' h]; exact h1, by
    rw [shape_n_elem m m' h, shape_length m m' h]; exact h2, ?_⟩
  intro e' he'
  obtain ⟨i, hi, rfl⟩ := List.getElem_of_mem he'
  have hi0 : i < m.elems.length := by rw [← shape_length m m' h]; exact hi
  have hs := shape_elem m m' h i
  rw [List.getElem?_eq_getElem hi, List.getElem?_eq_getElem hi0] at hs
  simp only [Option.map_some', Option.some.injEq] at hs
  have hw := hall m.elems[i] (List.getElem_mem hi0)
  have hp : (m'.elems[i]).p = (m.elems[i]).p := by
    have h3 := congrArg Element.p hs
    exact h3
  have hd : (m'.elems[i]).dof.map (fun d => List.replicate d.length (0 : Int)) =
      (m.elems[i]).dof.map (fun d => List.replicate d.length (0 : Int)) := by
    have h3 := congrArg Element.dof hs
    exact h3
  have hlen : (m'.elems[i]).dof.map (fun d => (d.length : Int)) =
      (m.elems[i]).dof.map (fun d => (d.length : Int)) := by
    have h4 := congrArg (Option.map (fun d : List Int => (d.length : Int))) hd
    simpa [Option.map_map, Function.comp_def] using h4
  exact ⟨by rw [hp]; exact hw.1, by rw [hlen, hp]; exact hw.2⟩

theorem wf_cell_inv (m : Mesh) (hwf : m.wf) (i j : Nat) (h : (m.dofAt i j).isSome = true) :
    i < m.elems.length ∧ (j : Int) ≤ m.deg i := by
  obtain ⟨_, _, hall⟩ := hwf
  cases he : m.elems[i]? with
  | none => simp [Mesh.dofAt, he] at h
  | some e =>
    have hi : i < m.elems.length := (List.getElem?_eq_some_iff.mp he).1
    have hmem : e ∈ m.elems := by
      rw [← (List.getElem?_eq_some_iff.mp he).2]
      exact List.getElem_mem hi
    obtain ⟨_, hd⟩ := hall e hmem
    cases hdof : e.dof with
    | none => simp [Mesh.dofAt, he, hdof] at h
    | some d =>
      simp only [Mesh.dofAt, he, hdof] at h
      obtain ⟨x, hx⟩ := Option.isSome_iff_exists.mp h
      have hj : j < d.length := (List.getElem?_eq_some_iff.mp hx).1
      simp only [hdof, Option.map_some', Option.some.injEq] at hd
      refine ⟨hi, ?_⟩
      simp only [Mesh.deg, he]
      omega

theorem finalDof_shape (m m' : Mesh) (h : m'.shape = m.shape) (i j : Nat) :
    m'.finalDof i j = m.finalDof i j := by
  have hb : ∀ k, m'.bubblesBefore k = m.bubblesBefore k := fun k => by
    unfold Mesh.bubblesBefore
    exact Finset.sum_congr rfl (fun x _ => by rw [shape_deg m m' h])
  have hl : (if m'.leftDir then (0 : Int) else 1) = if m.leftDir then 0 else 1 :=
    if_congr (shape_leftDir m m' h) rfl rfl
  have hl2 : (if m'.leftDir then (-1 : Int) else 0) = if m.leftDir then -1 else 0 :=
    if_congr (shape_leftDir m m' h) rfl rfl
  have hr : (if m'.rightDir then (0 : Int) else 1) = if m.rightDir then 0 else 1 :=
    if_congr (shape_rightDir m m' h) rfl rfl
  have hci : m'.countInner = m.countInner := by
    simp only [Mesh.countInner, hl, shape_n_elem m m' h]
  have hr2 : (if m'.rightDir then (-1 : Int) else m.countInner + 1) =
      if m.rightDir then -1 else m.countInner + 1 :=
    if_congr (shape_rightDir m m' h) rfl rfl
  simp only [Mesh.finalDof, Mesh.countVertex, hci, hl, hl2, hr, hr2, hb, shape_n_elem m m' h]

theorem finalNDof_shape (m m' : Mesh) (h : m'.shape = m.shape) :
    m'.finalNDof = m.finalNDof := by
  have hb : ∀ k, m'.bubblesBefore k = m.bubblesBefore k := fun k => by
    unfold Mesh.bubblesBefore
    exact Finset.sum_congr rfl (fun x _ => by rw [shape_deg m m' h])
  have hl : (if m'.leftDir then (0 : Int) else 1) = if m.leftDir then 0 else 1 :=
    if_congr (shape_leftDir m m' h) rfl rfl
  have hr : (if m'.rightDir then (0 : Int) else 1) = if m.rightDir then 0 else 1 :=
    if_congr (shape_rightDir m m' h) rfl rfl
  simp only [Mesh.finalNDof, Mesh.countVertex, Mesh.countInner, hl, hr, hb,
    shape_n_elem m m' h, shape_length m m' h]

/-- Two meshes of the same shape with the same dof contents and `n_dof` are equal. -/
theorem mesh_ext (m m' : Mesh) (h : m'.shape = m.shape) (hn : m'.n_dof = m.n_dof)
    (hc : ∀ i j, m'.dofAt i j = m.dofAt i j) : m' = m := by
  have hel : m'.elems = m.elems := by
    apply List.ext_getElem?
    intro i
    have hs := shape_elem m m' h i
    cases he' : m'.elems[i]? with
    | none =>
      cases he : m.elems[i]? with
      | none => rfl
      | some e => simp [he', he] at hs
    | some e' =>
      cases he : m.elems[i]? with
      | none => simp [he', he] at hs
      | some e =>
        simp only [he', he, Option.map_some', Option.some.injEq] at hs
        have hp : e'.p = e.p := by
          have h3 := congrArg Element.p hs
          exact h3
        have hv1 : e'.v1 = e.v1 := by
          have h3 := congrArg Element.v1 hs
          exact h3
        have hv2 : e'.v2 = e.v2 := by
          have h3 := congrArg Element.v2 hs
          exact h3
        have hd : e'.dof.map (fun d => List.replicate d.length (0 : Int)) =
            e.dof.map (fun d => List.replicate d.length (0 : Int)) := by
          have h3 := congrArg Element.dof hs
          exact h3
        have hdof : e'.dof = e.dof := by
          cases hd' : e'.dof with
          | none =>
            cases hd0 : e.dof with
            | none => rfl
            | some d => simp [hd', hd0] at hd
          | some d' =>
            cases hd0 : e.dof with
            | none => simp [hd', hd0] at hd
            | some d =>
              congr 1
              apply List.ext_getElem?
              intro j
              have := hc i j
              simpa [Mesh.dofAt, he', he, hd', hd0] using this
        cases e'
        cases e
        simp_all
  have h1 : m'.n_elem = m.n_elem := shape_n_elem m m' h
  have h2 : m'.vertices = m.vertices := by
    have h3 := congrArg Mesh.vertices h
    exact h3
  have h3 : m'.dir_bc_left_active = m.dir_bc_left_active := by
    have h3 := congrArg Mesh.dir_bc_left_active h
    exact h3
  have h4 : m'.dir_bc_left_values = m.dir_bc_left_values := by
    have h3 := congrArg Mesh.dir_bc_left_values h
    exact h3
  have h5 : m'.dir_bc_right_active = m.dir_bc_right_active := by
    have h3 := congrArg Mesh.dir_bc_right_active h
    exact h3
  have h6 : m'.dir_bc_right_values = m.dir_bc_right_values := by
    have h3 := congrArg Mesh.dir_bc_right_values h
    exact h3
  cases m'
  cases m
  simp_all

/-- The result of `assign_dofs` is a function of the shape of the mesh alone. -/
theorem assign_dofs_shape (m1 m2 : Mesh) (hwf : m1.wf) (h : m2.shape = m1.shape) :
    ∃ r1 r2, assign_dofs m1 = .ok r1 ∧ assign_dofs m2 = .ok r2 ∧ r2 = r1 := by
  obtain ⟨r1, e1, s1, n1, c1⟩ := assign_dofs_spec m1 hwf
  have hwf2 := shape_wf m1 m2 h hwf
  obtain ⟨r2, e2, s2, n2, c2⟩ := assign_dofs_spec m2 hwf2
  refine ⟨r1, r2, e1, e2, ?_⟩
  have hs : r2.shape = r1.shape := by rw [s2, h, s1]
  apply mesh_ext r1 r2 hs
  · rw [n2, n1, finalNDof_shape m1 m2 h]
  · intro i j
    have hwfr1 := shape_wf m1 r1 s1 hwf
    cases hcell : r1.dofAt i j with
    | none =>
      have h2 : (r2.dofAt i j).isSome = false := by rw [shape_cell r1 r2 hs, hcell]; rfl
      cases h3 : r2.dofAt i j with
      | none => rfl
      | some x => simp [h3] at h2
    | some x0 =>
      rw [← hcell]
      have hcell : (r1.dofAt i j).isSome = true := by rw [hcell]; rfl
      obtain ⟨hi, hj⟩ := wf_cell_inv r1 hwfr1 i j hcell
      rw [shape_length m1 r1 s1] at hi
      rw [shape_deg m1 r1 s1] at hj
      rw [c1 i j hi hj]
      rw [← shape_length m1 m2 h] at hi
      rw [← shape_deg m1 m2 h] at hj
      rw [c2 i j hi hj, finalDof_shape m1 m2 h]

/-! ## Loops that fill an array: `create` and `set_poly_orders` -/

theorem forRange_fill {α : Type} (g : Nat → α → α)
    (body : Nat → List α → Except Failure (List α)) (l : List α)
    (hbody : ∀ i (a : List α) (e : α), a[i]? = some e → body i a = .ok (a.set i (g i e))) :
    ∃ r, forRange 0 (l.length : Int) body l = .ok r ∧ r.length = l.length ∧
      ∀ k, r[k]? = (l[k]?).map (g k) := by
  obtain ⟨r, hrun, hinv⟩ := forRange_inv
    (fun i (a : List α) => a.length = l.length ∧
      ∀ k, a[k]? = if k < i then (l[k]?).map (g k) else l[k]?)
    l.length body
    (by
      rintro i a hi ⟨hlen, hcells⟩
      have hai : a[i]? = some l[i] := by
        rw [hcells i, if_neg (lt_irrefl i)]
        exact List.getElem?_eq_getElem hi
      refine ⟨a.set i (g i l[i]), hbody i a _ hai, by simpa using hlen, ?_⟩
      intro k
      rw [List.getElem?_set]
      by_cases hk : i = k
      · subst hk
        have : i < a.length := by omega
        simp [this, List.getElem?_eq_getElem hi]
      · have hlt : (k < i + 1) ↔ k < i := by omega
        simp only [hk, if_false, hcells k, hlt])
    0 l ⟨rfl, fun k => by simp⟩
  have hmax : max 0 l.length = l.length := max_eq_right (Nat.zero_le _)
  rw [hmax] at hinv
  refine ⟨r, hrun, hinv.1, ?_⟩
  intro k
  rw [hinv.2 k]
  by_cases hk : k < l.length
  · simp [hk]
  · simp [hk, List.getElem?_eq_none (Nat.le_of_not_lt hk)]

theorem newArray_nat {α : Type} (k : Nat) (init : Nat → α) :
    newArray (k : Int) init = .ok ((List.range k).map init) := by
  simp [newArray]

theorem newArray_neg {α : Type} (k : Int) (init : Nat → α) (h : k < 0) :
    newArray k init = .error .badArrayLength := by
  simp [newArray, h]

/-- What `create` returns for a non-negative element count. -/
theorem create_spec (A B : ℚ) (n : Nat) (self : Mesh) :
    ∃ vs es, create A B n self = .ok { self with n_elem := n, vertices := vs, elems := es } ∧
      vs.length = n + 1 ∧ es.length = n ∧
      (∀ k, vs[k]? = if k < n + 1 then some ⟨A + (k : ℚ) * ((B - A) / (n : ℚ))⟩ else none) ∧
      ∀ k, es[k]? = if k < n then some ⟨-1, k, k + 1, none⟩ else none := by
  obtain ⟨vs, hv, hvl, hvc⟩ := forRange_fill
    (fun i (v : Vertex) => ({ v with x := A + (i : ℚ) * ((B - A) / (n : ℚ)) } : Vertex))
    (fun i vs => do
      let v ← readAt vs i
      writeAt vs i { v with x := A + (i : ℚ) * ((B - A) / (n : ℚ)) })
    ((List.range (n + 1)).map (fun _ => ({ x := 0 } : Vertex)))
    (by
      intro i a e he
      have hi : i < a.length := (List.getElem?_eq_some_iff.mp he).1
      simp [readAt_nat _ _ _ he, writeAt_nat _ _ _ hi, bind, Except.bind])
  obtain ⟨es, he, hel, hec⟩ := forRange_fill
    (fun i (e : Element) => ({ e with p := -1, v1 := i, v2 := i + 1, dof := none } : Element))
    (fun i es => do
      let e ← readAt es i
      writeAt es i { e with p := -1, v1 := i, v2 := i + 1, dof := none })
    ((List.range n).map (fun _ => ({ p := 0, v1 := 0, v2 := 0, dof := none } : Element)))
    (by
      intro i a e he
      have hi : i < a.length := (List.getElem?_eq_some_iff.mp he).1
      simp [readAt_nat _ _ _ he, writeAt_nat _ _ _ hi, bind, Except.bind])
  simp only [List.length_map, List.length_range] at hv hvl he hel
  refine ⟨vs, es, ?_, hvl, hel, ?_, ?_⟩
  · have e1 : newArray ((n : Int) + 1) (fun _ => ({ x := 0 } : Vertex)) =
        .ok ((List.range (n + 1)).map (fun _ => ({ x := 0 } : Vertex))) := by
      have := newArray_nat (n + 1) (fun _ => ({ x := 0 } : Vertex))
      simpa using this
    have hv' : forRange 0 ((n : Int) + 1) (fun i vs => do
        let v ← readAt vs i
        writeAt vs i { v with x := A + (i : ℚ) * ((B - A) / (n : ℚ)) })
        ((List.range (n + 1)).map (fun _ => ({ x := 0 } : Vertex))) = .ok vs := by
      have := hv
      push_cast at this
      exact this
    simp only [bind, Except.bind] at hv' he
    simp only [create, e1, newArray_nat, bind, Except.bind, pure, Except.pure, Int.cast_natCast,
      hv', he]
  · intro k
    rw [hvc k]
    by_cases hk : k < n + 1
    · simp [hk]
    · simp [hk]
      omega
  · intro k
    rw [hec k]
    by_cases hk : k < n
    · simp [hk]
    · simp [hk]
      omega

/-- What `set_poly_orders` returns on a mesh whose element array has `n_elem` cells, for a
degree whose array length `poly_order + 1` is not negative. -/
theorem set_poly_orders_spec (p : Int) (hp : 0 ≤ p + 1) (junk : Nat → Nat → Int) (m : Mesh)
    (hlen : (m.elems.length : Int) = m.n_elem) :
    ∃ es, set_poly_orders p junk m = .ok { m with elems := es } ∧
      es.length = m.elems.length ∧
      ∀ k, es[k]? = (m.elems[k]?).map (fun (e : Element) =>
        ({ e with p := p, dof := some ((List.range (p + 1).toNat).map (junk k)) } : Element)) := by
  obtain ⟨es, he, hel, hec⟩ := forRange_fill
    (fun i (e : Element) =>
      ({ e with p := p, dof := some ((List.range (p + 1).toNat).map (junk i)) } : Element))
    (fun i es => do
      let e ← readAt es i
      let d ← newArray (p + 1) (junk i)
      writeAt es i { e with p := p, dof := some d })
    m.elems
    (by
      intro i a e he
      have hi : i < a.length := (List.getElem?_eq_some_iff.mp he).1
      have hn : ¬ (p + 1 < 0) := by omega
      simp [readAt_nat _ _ _ he, writeAt_nat _ _ _ hi, newArray, hn, bind, Except.bind])
  refine ⟨es, ?_, hel, hec⟩
  simp only [bind, Except.bind] at he
  simp only [set_poly_orders, ← hlen, he, bind, Except.bind, pure, Except.pure]

/-! ## `eval_approx` -/

theorem evalLoop_spec (lob : Nat → ℚ → ℚ) (e : Element) (d : List Int) (x : ℚ) (y : List ℚ)
    (hd : e.dof = some d) (hlen : (d.length : Int) = e.p + 1)
    (hy : ∀ j, j < d.length → d.getD j 0 < (y.length : Int)) :
    forRange 0 (e.p + 1) (evalBody lob e x y) 0 = .ok (evalSum lob d x y) := by
  rw [← hlen]
  obtain ⟨v, hrun, hinv⟩ := forRange_inv
    (fun k (v : ℚ) => v = ∑ j in Finset.range k,
      if 0 ≤ d.getD j 0 then y.getD (d.getD j 0).toNat 0 * lob j x else 0)
    d.length (evalBody lob e x y)
    (by
      intro k v hk hv
      obtain ⟨dk, hdk⟩ : ∃ dk, d.getD k 0 = dk := ⟨_, rfl⟩
      have hdk' : d[k]? = some dk := by
        rw [← hdk, List.getD_eq_getElem?_getD, List.getElem?_eq_getElem hk]
        rfl
      have hread : e.readDof (k : Int) = .ok dk := by
        simp only [Element.readDof, hd]
        exact readAt_nat d k _ hdk'
      have hlt := hy k hk
      rw [hdk] at hlt
      by_cases hpos : 0 ≤ dk
      · obtain ⟨yk, hyk⟩ : ∃ yk, y.getD dk.toNat 0 = yk := ⟨_, rfl⟩
        have hyk' : y[dk.toNat]? = some yk := by
          have : dk.toNat < y.length := by omega
          rw [← hyk, List.getD_eq_getElem?_getD, List.getElem?_eq_getElem this]
          rfl
        have hready : readAt y dk = .ok yk := by
          have := readAt_nat y dk.toNat _ hyk'
          rwa [Int.toNat_of_nonneg hpos] at this
        refine ⟨v + yk * lob k x, ?_, ?_⟩
        · simp only [evalBody, hread, bind, Except.bind, ge_iff_le, hpos, if_true, hready, pure,
            Except.pure]
        · show v + yk * lob k x = _
          rw [Finset.sum_range_succ, ← hv, hdk, if_pos hpos, hyk]
      · refine ⟨v, ?_, ?_⟩
        · simp only [evalBody, hread, bind, Except.bind, ge_iff_le, hpos, if_false, pure,
            Except.pure]
        · show v = _
          rw [Finset.sum_range_succ, ← hv, hdk, if_neg hpos, add_zero])
    0 0 (by simp)
  rw [max_eq_right (Nat.zero_le _)] at hinv
  rw [hrun, hinv]
  rfl

theorem eval_approx_spec (l : Linearizer) (lob : Nat → ℚ → ℚ) (e : Element) (d : List Int)
    (x : ℚ) (y : List ℚ) (a b : Vertex) (hd : e.dof = some d)
    (hlen : (d.length : Int) = e.p + 1)
    (hy : ∀ j, j < d.length → d.getD j 0 < (y.length : Int))
    (ha : l.mesh.vertices[e.v1]? = some a) (hb : l.mesh.vertices[e.v2]? = some b) :
    l.eval_approx lob e x y =
      .ok ((a.x + b.x) / 2 + x * (b.x - a.x) / 2, evalSum lob d x y) := by
  simp [Linearizer.eval_approx, evalLoop_spec lob e d x y hd hlen hy, readAt_nat _ _ _ ha,
    readAt_nat _ _ _ hb, bind, Except.bind, pure, Except.pure]

/-- At `x_ref = 1` only the right vertex function contributes. -/
theorem evalSum_right (lob : Nat → ℚ → ℚ) (d : List Int) (y : List ℚ) (h2 : 2 ≤ d.length)
    (h0 : lob 0 1 = 0) (h1 : lob 1 1 = 1) (hb : ∀ j, 2 ≤ j → lob j 1 = 0)
    (hg : 0 ≤ d.getD 1 0) : evalSum lob d 1 y = y.getD (d.getD 1 0).toNat 0 := by
  unfold evalSum
  rw [Finset.sum_eq_single 1]
  · rw [if_pos hg, h1, mul_one]
  · intro j _ hj
    by_cases hj0 : j = 0
    · subst hj0
      simp [h0]
    · simp [hb j (by omega)]
  · intro h
    exact absurd (Finset.mem_range.mpr (by omega)) h

/-- At `x_ref = -1` only the left vertex function contributes. -/
theorem evalSum_left (lob : Nat → ℚ → ℚ) (d : List Int) (y : List ℚ) (h2 : 2 ≤ d.length)
    (h0 : lob 0 (-1) = 1) (h1 : lob 1 (-1) = 0) (hb : ∀ j, 2 ≤ j → lob j (-1) = 0)
    (hg : 0 ≤ d.getD 0 0) : evalSum lob d (-1) y = y.getD (d.getD 0 0).toNat 0 := by
  unfold evalSum
  rw [Finset.sum_eq_single 0]
  · rw [if_pos hg, h0, mul_one]
  · intro j _ hj
    by_cases hj1 : j = 1
    · subst hj1
      simp [h1]
    · simp [hb j (by omega)]
  · intro h
    exact absurd (Finset.mem_range.mpr (by omega)) h

/-! ## Bounds on the numbering -/

theorem bubblesBefore_nonneg (m : Mesh) (hwf : m.wf) (k : Nat) (hk : k ≤ m.elems.length) :
    0 ≤ m.bubblesBefore k := by
  unfold Mesh.bubblesBefore
  apply Finset.sum_nonneg
  intro x hx
  have := wf_deg m hwf x (lt_of_lt_of_le (Finset.mem_range.mp hx) hk)
  omega

theorem bubblesBefore_mono (m : Mesh) (hwf : m.wf) (k k' : Nat) (hk : k ≤ k')
    (hk' : k' ≤ m.elems.length) : m.bubblesBefore k ≤ m.bubblesBefore k' := by
  induction k' with
  | zero =>
    have : k = 0 := by omega
    subst this
    exact le_refl _
  | succ q ih =>
    by_cases hq : k = q + 1
    · subst hq
      exact le_refl _
    · have h1 := ih (by omega) (by omega)
      have h2 := wf_deg m hwf q (by omega)
      rw [bubblesBefore_succ]
      omega

theorem finalDof_lt (m : Mesh) (hwf : m.wf) (i j : Nat) (hi : i < m.elems.length)
    (hj : (j : Int) ≤ m.deg i) : m.finalDof i j < m.finalNDof ∧ -1 ≤ m.finalDof i j := by
  obtain ⟨hN, hNe⟩ := wf_length m hwf
  have hb0 := bubblesBefore_nonneg m hwf i (by omega)
  have hb1 := bubblesBefore_mono m hwf (i + 1) m.elems.length (by omega) (le_refl _)
  rw [bubblesBefore_succ] at hb1
  have hbN := bubblesBefore_nonneg m hwf m.elems.length (le_refl _)
  unfold Mesh.finalDof Mesh.finalNDof Mesh.countVertex Mesh.countInner
  split_ifs <;> constructor <;> omega

theorem finalDof_shared (m : Mesh) (i : Nat) (hi : (i : Int) + 1 < m.n_elem) :
    m.finalDof i 1 = (if m.leftDir then 0 else 1) + (i : Int) ∧
    m.finalDof (i + 1) 0 = (if m.leftDir then 0 else 1) + (i : Int) := by
  have hne : ¬ (i : Int) + 1 = m.n_elem := by omega
  constructor
  · simp [Mesh.finalDof, hne]
  · by_cases hlast : (i : Int) + 1 + 1 = m.n_elem
    · have : ((m.n_elem - 2).toNat : Int) = (i : Int) := by omega
      simp [Mesh.finalDof, hlast, Mesh.countInner, this]
    · simp only [Mesh.finalDof, if_true, Nat.cast_add, Nat.cast_one, hlast, if_false,
        Nat.add_one_ne_zero]
      ring

/-! ## The mesh made by `create` and `set_poly_orders` -/

theorem prepared_spec (A B : ℚ) (n : Nat) (p : Int) (junk : Nat → Nat → Int) (self : Mesh)
    (hn : 1 ≤ n) (hp : 1 ≤ p) :
    ∃ m, (create A B n self >>= set_poly_orders p junk) = .ok m ∧ m.wf ∧ m.n_elem = n ∧
      m.elems.length = n ∧ (m.leftDir ↔ self.leftDir) ∧ (m.rightDir ↔ self.rightDir) ∧
      (∀ k, k < n + 1 → m.vertices[k]? = some ⟨A + (k : ℚ) * ((B - A) / (n : ℚ))⟩) ∧
      ∀ k, k < n → m.elems[k]? =
        some ⟨p, k, k + 1, some ((List.range (p + 1).toNat).map (junk k))⟩ := by
  obtain ⟨vs, es, hc, hvl, hel, hvs, hes⟩ := create_spec A B n self
  obtain ⟨es', hs, hel', hes'⟩ := set_poly_orders_spec p (by omega) junk
    { self with n_elem := n, vertices := vs, elems := es } (by simp [hel])
  have helems : ∀ k, k < n → es'[k]? =
      some ⟨p, k, k + 1, some ((List.range (p + 1).toNat).map (junk k))⟩ := by
    intro k hk
    rw [hes' k]
    show (es[k]?).map _ = _
    rw [hes k, if_pos hk]
    rfl
  refine ⟨{ self with n_elem := n, vertices := vs, elems := es' }, by
    rw [hc]
    exact hs, ?_, rfl, by
    show es'.length = n
    rw [hel']
    exact hel, Iff.rfl, Iff.rfl, ?_, helems⟩
  · refine ⟨by show (1 : Int) ≤ (n : Int); omega, by
      show ((es'.length : Nat) : Int) = (n : Int)
      rw [hel']
      show ((es.length : Nat) : Int) = (n : Int)
      omega, ?_⟩
    intro e hmem
    obtain ⟨k, hk, rfl⟩ := List.getElem_of_mem hmem
    have hk' : k < es'.length := hk
    have hkn : k < n := by
      rw [hel'] at hk'
      have : k < es.length := hk'
      omega
    have h1 := helems k hkn
    rw [List.getElem?_eq_getElem hk'] at h1
    injection h1 with h1
    show (es'[k]).wf
    rw [h1]
    refine ⟨hp, ?_⟩
    simp only [Option.map_some', List.length_map, List.length_range, Option.some.injEq]
    omega
  · intro k hk
    show vs[k]? = _
    rw [hvs k, if_pos hk]

/-- The element `k` of a mesh that has the shape of `m0` and holds the numbering `f`. -/
theorem shape_getElem (m0 m : Mesh) (hs : m.shape = m0.shape) (k : Nat) (e0 : Element)
    (d0 : List Int) (he0 : m0.elems[k]? = some e0) (hd0 : e0.dof = some d0) :
    ∃ e d, m.elems[k]? = some e ∧ e.p = e0.p ∧ e.v1 = e0.v1 ∧ e.v2 = e0.v2 ∧
      e.dof = some d ∧ d.length = d0.length ∧ ∀ j, m.dofAt k j = d[j]? := by
  have h1 := shape_elem m0 m hs k
  rw [he0] at h1
  cases he : m.elems[k]? with
  | none => simp [he] at h1
  | some e =>
    simp only [he, Option.map_some', Option.some.injEq] at h1
    have hp : e.p = e0.p := by
      have h3 := congrArg Element.p h1
      exact h3
    have hv1 : e.v1 = e0.v1 := by
      have h3 := congrArg Element.v1 h1
      exact h3
    have hv2 : e.v2 = e0.v2 := by
      have h3 := congrArg Element.v2 h1
      exact h3
    have hd : e.dof.map (fun d => List.replicate d.length (0 : Int)) =
        e0.dof.map (fun d => List.replicate d.length (0 : Int)) := by
      have h3 := congrArg Element.dof h1
      exact h3
    cases hdof : e.dof with
    | none => simp [hdof, hd0] at hd
    | some d =>
      simp only [hdof, hd0, Option.map_some', Option.some.injEq] at hd
      have hl : d.length = d0.length := by simpa using congrArg List.length hd
      refine ⟨e, d, rfl, hp, hv1, hv2, hdof, hl, ?_⟩
      intro j
      simp only [Mesh.dofAt, he, hdof]

/-! ## Degrees below 1 produce no numbering -/

theorem writeDof_none (m : Mesh) (i j : Nat) (v : Int) (h : m.dofAt i j = none) :
    ∃ f, m.writeDof (i : Int) (j : Int) v = .error f := by
  cases he : m.elems[i]? with
  | none => exact ⟨.outOfBounds, by simp [Mesh.writeDof, readAt, he, bind, Except.bind]⟩
  | some e =>
    cases hd : e.dof with
    | none =>
      exact ⟨.nullDeref, by simp [Mesh.writeDof, readAt_nat _ _ _ he, hd, bind, Except.bind]⟩
    | some d =>
      have hj : ¬ j < d.length := by
        intro hlt
        simp [Mesh.dofAt, he, hd, List.getElem?_eq_getElem hlt] at h
      exact ⟨.outOfBounds, by
        simp [Mesh.writeDof, readAt_nat _ _ _ he, hd, writeAt, hj, bind, Except.bind]⟩

theorem assign_dofs_no_right_slot (m : Mesh) (h : m.dofAt 0 1 = none) :
    ∃ f, assign_dofs m = .error f := by
  have key : ∀ v w, ∃ f, (m.writeDof 0 0 v >>= fun m' => m'.writeDof 0 1 w) = .error f := by
    intro v w
    cases h0 : (m.dofAt 0 0).isSome with
    | false =>
      have h0' : m.dofAt 0 0 = none := by
        cases hx : m.dofAt 0 0 with
        | none => rfl
        | some x => simp [hx] at h0
      obtain ⟨f, hf⟩ := writeDof_none m 0 0 v h0'
      have hf' : m.writeDof 0 0 v = .error f := by simpa using hf
      exact ⟨f, by simp [hf', bind, Except.bind]⟩
    | true =>
      have e0 : m.writeDof 0 0 v = .ok (m.setDof 0 0 v) := by
        have := writeDof_eq m 0 0 v h0
        simpa using this
      have h1 : (m.setDof 0 0 v).dofAt 0 1 = none := by
        rw [dofAt_setDof]
        simp [h]
      obtain ⟨f, hf⟩ := writeDof_none (m.setDof 0 0 v) 0 1 w h1
      have hf' : (m.setDof 0 0 v).writeDof 0 1 w = .error f := by simpa using hf
      exact ⟨f, by simp [e0, hf', bind, Except.bind]⟩
  have hleft : ∃ f, assignLeft m = .error f := by
    unfold assignLeft
    by_cases hl : m.dir_bc_left_active 0 ≠ 0
    · obtain ⟨f, hf⟩ := key (-1) 0
      refine ⟨f, ?_⟩
      rw [if_pos hl]
      cases hw : m.writeDof 0 0 (-1) with
      | error g =>
        simp only [hw, bind, Except.bind] at hf ⊢
        rw [Except.error.inj hf]
      | ok m' =>
        simp only [hw, bind, Except.bind, pure, Except.pure] at hf ⊢
        rw [hf]
    · obtain ⟨f, hf⟩ := key 0 1
      refine ⟨f, ?_⟩
      rw [if_neg hl]
      cases hw : m.writeDof 0 0 0 with
      | error g =>
        simp only [hw, bind, Except.bind] at hf ⊢
        rw [Except.error.inj hf]
      | ok m' =>
        simp only [hw, bind, Except.bind, pure, Except.pure] at hf ⊢
        rw [hf]
  obtain ⟨f, hf⟩ := hleft
  exact ⟨f, by simp [assign_dofs, hf, bind, Except.bind]⟩

/-- With a degree below 1 the calls `create`, `set_poly_orders`, `assign_dofs` return no mesh:
either the dof array cannot be allocated, or it has no cell for the right vertex. -/
theorem numbering_fails_below_degree_one (A B : ℚ) (n : Nat) (p : Int)
    (junk : Nat → Nat → Int) (self : Mesh) (hn : 1 ≤ n) (hp : p < 1) :
    ∃ f, (create A B n self >>= set_poly_orders p junk >>= assign_dofs) = .error f := by
  obtain ⟨vs, es, hc, hvl, hel, hvs, hes⟩ := create_spec A B n self
  obtain ⟨m0, hm0⟩ : ∃ m0 : Mesh, m0 = { self with n_elem := n, vertices := vs, elems := es } :=
    ⟨_, rfl⟩
  rw [← hm0] at hc
  have hm0e : m0.elems = es := by rw [hm0]
  have hm0n : m0.n_elem = (n : Int) := by rw [hm0]
  have h0 : m0.elems[0]? = some ⟨-1, 0, 1, none⟩ := by
    rw [hm0e, hes 0, if_pos (by omega)]
  rw [hc]
  show ∃ f, (set_poly_orders p junk m0 >>= assign_dofs) = .error f
  by_cases hneg : p + 1 < 0
  · have hr : readAt m0.elems 0 = .ok ⟨-1, 0, 1, none⟩ := by
      have := readAt_nat m0.elems 0 _ h0
      simpa using this
    have hset : set_poly_orders p junk m0 = .error .badArrayLength := by
      unfold set_poly_orders
      rw [hm0n, forRange_step _ _ _ _ (by exact_mod_cast hn)]
      simp only [Nat.cast_zero, hr, newArray_neg _ _ hneg, bind, Except.bind]
    exact ⟨_, by rw [hset]; rfl⟩
  · obtain ⟨es', hs, hel', hes'⟩ := set_poly_orders_spec p (by omega) junk m0
      (by rw [hm0e, hm0n, hel])
    obtain ⟨m1, hm1⟩ : ∃ m1 : Mesh, m1 = { m0 with elems := es' } := ⟨_, rfl⟩
    rw [← hm1] at hs
    have h1 : m1.elems[0]? =
        some ⟨p, 0, 1, some ((List.range (p + 1).toNat).map (junk 0))⟩ := by
      have : m1.elems = es' := by rw [hm1]
      rw [this, hes' 0, h0]
      rfl
    have hcell : m1.dofAt 0 1 = none := by
      have hlen : (p + 1).toNat ≤ 1 := by omega
      simp only [Mesh.dofAt, h1]
      exact List.getElem?_eq_none (by simpa using hlen)
    obtain ⟨f, hf⟩ := assign_dofs_no_right_slot m1 hcell
    exact ⟨f, by rw [hs]; exact hf⟩

/-! ## Size of the numbering (C1, C2) -/

theorem bubblesBefore_uniform (m : Mesh) (p : Int) (h : ∀ i, i < m.elems.length → m.deg i = p)
    (k : Nat) (hk : k ≤ m.elems.length) : m.bubblesBefore k = (k : Int) * (p - 1) := by
  unfold Mesh.bubblesBefore
  rw [Finset.sum_congr rfl (fun x hx => by
    rw [h x (lt_of_lt_of_le (Finset.mem_range.mp hx) hk)])]
  simp

/-- For at least two elements of uniform degree `p` and Dirichlet conditions at both ends,
`assign_dofs` sets `n_dof = n*p - 1`. -/
theorem n_dof_dirichlet_of_two_le (m : Mesh) (hwf : m.wf) (hn : 2 ≤ m.n_elem) (p : Int)
    (hp : ∀ i, i < m.elems.length → m.deg i = p) (hl : m.leftDir) (hr : m.rightDir) :
    ∃ m', assign_dofs m = .ok m' ∧ m'.n_dof = m.n_elem * p - 1 := by
  obtain ⟨m', e, _, hnd, _⟩ := assign_dofs_spec m hwf
  obtain ⟨_, hNe⟩ := wf_length m hwf
  refine ⟨m', e, ?_⟩
  rw [hnd, Mesh.finalNDof, bubblesBefore_uniform m p hp _ (le_refl _), Mesh.countVertex,
    Mesh.countInner, if_pos hl, if_pos hr, hNe]
  have : ((m.n_elem - 2).toNat : Int) = m.n_elem - 2 := by omega
  rw [this]
  ring

/-- For at least two elements of uniform degree `p` and no Dirichlet condition,
`assign_dofs` sets `n_dof = n*(p+1) - (n-1)`. -/
theorem n_dof_free_of_two_le (m : Mesh) (hwf : m.wf) (hn : 2 ≤ m.n_elem) (p : Int)
    (hp : ∀ i, i < m.elems.length → m.deg i = p) (hl : ¬ m.leftDir) (hr : ¬ m.rightDir) :
    ∃ m', assign_dofs m = .ok m' ∧ m'.n_dof = m.n_elem * (p + 1) - (m.n_elem - 1) := by
  obtain ⟨m', e, _, hnd, _⟩ := assign_dofs_spec m hwf
  obtain ⟨_, hNe⟩ := wf_length m hwf
  refine ⟨m', e, ?_⟩
  rw [hnd, Mesh.finalNDof, bubblesBefore_uniform m p hp _ (le_refl _), Mesh.countVertex,
    Mesh.countInner, if_neg hl, if_neg hr, hNe]
  have : ((m.n_elem - 2).toNat : Int) = m.n_elem - 2 := by omega
  rw [this]
  ring

/-- C1, at the failing input: one element of degree 1 with Dirichlet conditions at both ends.
`assign_dofs` returns `n_dof = 1` and the dof array `[0, -1]`: the write
`elems[n_elem-1].dof[0] = count` lands on the left slot of the only element and replaces the
sentinel, so one unknown is counted although `n*p - 1 = 0`. -/
theorem C1_single_element_dirichlet :
    numbering (numbered 1 1 true true) = .ok (1, [some [0, -1]]) ∧ (1 : Int) ≠ 1 * 1 - 1 := by
  decide

/-- C2, at the failing input: one element of degree 1 without Dirichlet conditions.
`assign_dofs` returns `n_dof = 3` and the dof array `[1, 2]`, although
`n*(p+1) - (n-1) = 2`. -/
theorem C2_single_element_free :
    numbering (numbered 1 1 false false) = .ok (3, [some [1, 2]]) ∧
      (3 : Int) ≠ 1 * (1 + 1) - (1 - 1) := by
  decide

/-- The instance of C2 named in the specification: three elements of degree 3 without
Dirichlet conditions give `n_dof = 10`. -/
theorem n_dof_three_cubic :
    numbering (numbered 3 3 false false) =
      .ok (10, [some [0, 1, 4, 5], some [1, 2, 6, 7], some [2, 3, 8, 9]]) := by
  decide

/-! ## Shared vertices, eliminated slots, idempotence (C3 - C6) -/

/-- C3: after `assign_dofs` on a mesh with `n ≥ 1` elements of degree at least 1, the right
vertex slot of element `i` and the left vertex slot of element `i+1` hold the same id, and that
id is not the sentinel `-1`. -/
theorem C3_shared_vertex_same_id (m : Mesh) (hwf : m.wf) :
    ∃ m', assign_dofs m = .ok m' ∧
      ∀ i : Nat, (i : Int) + 1 < m.n_elem →
        ∃ g : Int, m'.dofAt i 1 = some g ∧ m'.dofAt (i + 1) 0 = some g ∧ g ≠ -1 := by
  obtain ⟨m', e, _, _, hc⟩ := assign_dofs_spec m hwf
  obtain ⟨_, hNe⟩ := wf_length m hwf
  refine ⟨m', e, ?_⟩
  intro i hi
  have h1 := hc i 1 (by omega) (by exact_mod_cast wf_deg m hwf i (by omega))
  have h2 := hc (i + 1) 0 (by omega) (by
    have := wf_deg m hwf (i + 1) (by omega)
    omega)
  have hne : ¬ (i : Int) + 1 = m.n_elem := by omega
  refine ⟨(if m.leftDir then 0 else 1) + (i : Int), ?_, ?_, ?_⟩
  · rw [h1]
    simp [Mesh.finalDof, hne]
  · rw [h2]
    by_cases hlast : (i : Int) + 1 + 1 = m.n_elem
    · have : ((m.n_elem - 2).toNat : Int) = (i : Int) := by omega
      simp [Mesh.finalDof, hlast, Mesh.countInner, this]
    · simp only [Mesh.finalDof, if_true, Nat.cast_add, Nat.cast_one, hlast, if_false,
        Nat.add_one_ne_zero]
      congr 1
      ring
  · split_ifs <;> omega

/-- Instance of C3 on the mesh of three cubic elements. -/
theorem C3_shared_vertex_same_id_witness :
    cubicMesh.wf ∧ ∃ m', assign_dofs cubicMesh = .ok m' ∧
      ∀ i : Nat, (i : Int) + 1 < cubicMesh.n_elem →
        ∃ g : Int, m'.dofAt i 1 = some g ∧ m'.dofAt (i + 1) 0 = some g ∧ g ≠ -1 :=
  ⟨by decide, C3_shared_vertex_same_id cubicMesh (by decide)⟩

/-- C4, at the failing input: one element of degree 2 without Dirichlet conditions.
`assign_dofs` returns `n_dof = 4` and the dof array `[1, 2, 3]`: the id `0` of the range
`[0, n_dof)` is in no slot, and `n_dof` is one more than the three unknowns. -/
theorem C4_single_element_range :
    numbering (numbered 1 2 false false) = .ok (4, [some [1, 2, 3]]) ∧
      (0 : Int) ∉ [1, 2, 3] ∧ ([1, 2, 3] : List Int).length ≠ 4 := by
  decide

/-- C5, at the failing input: one element of degree 1 with a Dirichlet condition on the left
only.  `assign_dofs` returns the dof array `[0, 1]`: the left vertex slot holds `0`, not the
sentinel `-1`. -/
theorem C5_single_element_left :
    numbering (numbered 1 1 true false) = .ok (2, [some [0, 1]]) ∧ (0 : Int) ≠ -1 := by
  decide

/-- For at least two elements the eliminated slots are exactly the Dirichlet ends: the left
slot of the first element is `-1` under a left Dirichlet condition and `0` otherwise, the right
slot of the last element is `-1` exactly under a right Dirichlet condition, and every other
slot holds a non-negative id. -/
theorem eliminated_slots_of_two_le (m : Mesh) (hwf : m.wf) (hn : 2 ≤ m.n_elem) :
    ∃ m', assign_dofs m = .ok m' ∧
      m'.dofAt 0 0 = some (if m.leftDir then -1 else 0) ∧
      (∃ g, m'.dofAt (m.elems.length - 1) 1 = some g ∧ (g = -1 ↔ m.rightDir)) ∧
      ∀ i j : Nat, ¬ (i = 0 ∧ j = 0) → ¬ (i = m.elems.length - 1 ∧ j = 1) →
        ∀ g, m'.dofAt i j = some g → 0 ≤ g := by
  obtain ⟨m', e, hs, _, hc⟩ := assign_dofs_spec m hwf
  obtain ⟨hN, hNe⟩ := wf_length m hwf
  have hci : 0 ≤ m.countInner := by
    unfold Mesh.countInner
    split_ifs <;> omega
  refine ⟨m', e, ?_, ?_, ?_⟩
  · rw [hc 0 0 (by omega) (by have := wf_deg m hwf 0 (by omega); omega)]
    have : ¬ (1 : Int) = m.n_elem := by omega
    simp [Mesh.finalDof, this]
  · refine ⟨_, hc (m.elems.length - 1) 1 (by omega)
      (by exact_mod_cast wf_deg m hwf (m.elems.length - 1) (by omega)), ?_⟩
    have : ((m.elems.length - 1 : Nat) : Int) + 1 = m.n_elem := by omega
    simp only [Mesh.finalDof, this, if_true, one_ne_zero, if_false]
    by_cases hr : m.rightDir
    · simp [hr]
    · simp only [hr, if_false, iff_false]
      omega
  · intro i j h00 hlast g hg
    have hwf' := shape_wf m m' hs hwf
    obtain ⟨hi, hj⟩ := wf_cell_inv m' hwf' i j (by rw [hg]; rfl)
    rw [shape_length m m' hs] at hi
    rw [shape_deg m m' hs] at hj
    rw [hc i j hi hj] at hg
    have hg' : g = m.finalDof i j := by
      injection hg with hg
      exact hg.symm
    rw [hg']
    have hbb := bubblesBefore_nonneg m hwf i (by omega)
    unfold Mesh.finalDof Mesh.countVertex
    split_ifs <;> omega

/-- C6: `assign_dofs` is idempotent.  Whatever the dof arrays of a mesh with `n ≥ 1` elements of
degree at least 1 hold, a first run returns a mesh on which a second run changes nothing: same
dof arrays, same `n_dof`. -/
theorem C6_assign_dofs_idempotent (m : Mesh) (hwf : m.wf) :
    ∃ m', assign_dofs m = .ok m' ∧ assign_dofs m' = .ok m' := by
  obtain ⟨m', e, hs, _, _⟩ := assign_dofs_spec m hwf
  obtain ⟨r1, r2, e1, e2, h⟩ := assign_dofs_shape m m' hwf hs
  have : r1 = m' := by
    rw [e] at e1
    injection e1 with e1
    exact e1.symm
  subst this
  subst h
  exact ⟨r2, e, e2⟩

/-- Instance of C6 on the mesh of three cubic elements. -/
theorem C6_assign_dofs_idempotent_witness :
    cubicMesh.wf ∧ ∃ m', assign_dofs cubicMesh = .ok m' ∧ assign_dofs m' = .ok m' :=
  ⟨by decide, C6_assign_dofs_idempotent cubicMesh (by decide)⟩

/-! ## Missing validation (C8, C9) and `create` (C10) -/

/-- C8, counterexample: `set_poly_orders(0)` on the one-element mesh made by `create(0, 1, 1)`
returns normally, and the mesh it returns has an element of degree 0 (with a one-cell dof
array); no failure of any kind is raised. -/
theorem C8_degree_zero_accepted :
    layout (create 0 1 1 Mesh.blank >>= set_poly_orders 0 (fun _ _ => 0)) =
      .ok (1, [⟨0, 0, 1, some [0]⟩]) ∧
    layout (create 0 1 1 Mesh.blank >>= set_poly_orders 0 (fun _ _ => 0)) ≠
      .error .configurationError := by
  decide

/-- C8, amended: `set_poly_orders` does not validate the degree.  With `poly_order = 0`, on any
mesh whose element array has `n_elem` cells, it returns normally, keeps `n_elem`, and leaves
every element with degree 0 and a dof array of one cell.  `create` with a negative element
count returns no mesh; the call ends in an array allocation of negative length. -/
theorem C8_no_validation (m : Mesh) (junk : Nat → Nat → Int)
    (hlen : (m.elems.length : Int) = m.n_elem) (A B : ℚ) (n : Int) (hn : n < 0) (self : Mesh) :
    (∃ m', set_poly_orders 0 junk m = .ok m' ∧ m'.n_elem = m.n_elem ∧
      m'.elems.length = m.elems.length ∧
      ∀ e ∈ m'.elems, e.p = 0 ∧ e.dof.map List.length = some 1) ∧
    create A B n self = .error .badArrayLength := by
  constructor
  · obtain ⟨es, he, hel, hec⟩ := set_poly_orders_spec 0 (by omega) junk m hlen
    refine ⟨_, he, rfl, hel, ?_⟩
    intro e hmem
    obtain ⟨i, hi, rfl⟩ := List.getElem_of_mem hmem
    have h1 := hec i
    have hi' : i < es.length := hi
    rw [List.getElem?_eq_getElem hi', List.getElem?_eq_getElem (by omega)] at h1
    simp only [Option.map_some', Option.some.injEq] at h1
    show (es[i]).p = 0 ∧ (es[i]).dof.map List.length = some 1
    rw [h1]
    simp
  · by_cases h1 : n + 1 < 0
    · simp [create, newArray_neg _ _ h1, bind, Except.bind]
    · have hn1 : n = -1 := by omega
      subst hn1
      simp [create, newArray, forRange, bind, Except.bind, pure, Except.pure]

/-- Instance of the amended C8: degree 0 on the mesh of three elements, element count -1. -/
theorem C8_no_validation_witness :
    ((cubicMesh.elems.length : Int) = cubicMesh.n_elem ∧ (-1 : Int) < 0) ∧
    ((∃ m', set_poly_orders 0 (fun _ _ => 0) cubicMesh = .ok m' ∧ m'.n_elem = cubicMesh.n_elem ∧
      m'.elems.length = cubicMesh.elems.length ∧
      ∀ e ∈ m'.elems, e.p = 0 ∧ e.dof.map List.length = some 1) ∧
    create 0 1 (-1) Mesh.blank = .error .badArrayLength) :=
  ⟨by decide, C8_no_validation cubicMesh (fun _ _ => 0) (by decide) 0 1 (-1) (by decide)
    Mesh.blank⟩

/-- C9, counterexample: on the one-element mesh left by `create(0, 1, 1)` (degree `-1`, dof
array `NULL`) `assign_dofs` ends in a write through the null dof pointer; this is a memory
fault, not a reported usage error. -/
theorem C9_unset_mesh_null_write :
    layout (create 0 1 1 Mesh.blank) = .ok (1, [⟨-1, 0, 1, none⟩]) ∧
    numbering (create 0 1 1 Mesh.blank >>= assign_dofs) = .error .nullDeref ∧
    numbering (create 0 1 1 Mesh.blank >>= assign_dofs) ≠ .error .configurationError := by
  decide

/-- C9, amended: `assign_dofs` has no check of the degree.  On every mesh left by `create` with
`n_elem ≥ 1`, whatever the boundary records, its first assignment `elems[0].dof[0] = ...` goes
through the null dof pointer: the run ends there with a memory fault, no numbering and no
`n_dof` is assigned, and no default degree is used. -/
theorem C9_unset_mesh_faults (A B : ℚ) (n : Nat) (hn : 1 ≤ n) (self : Mesh) :
    ∃ m, create A B n self = .ok m ∧
      ∀ m2 : Mesh, m2.elems = m.elems → assign_dofs m2 = .error .nullDeref := by
  obtain ⟨vs, es, hc, _, hel, _, hes⟩ := create_spec A B n self
  refine ⟨_, hc, ?_⟩
  intro m2 h2
  have h0 : m2.elems[0]? = some ⟨-1, 0, 1, none⟩ := by
    rw [h2]
    have := hes 0
    rw [if_pos (by omega)] at this
    exact this
  have hr : readAt m2.elems 0 = .ok ⟨-1, 0, 1, none⟩ := by
    have := readAt_nat m2.elems 0 _ h0
    simpa using this
  have hw : ∀ v, m2.writeDof 0 0 v = .error .nullDeref := fun v => by
    simp [Mesh.writeDof, hr, bind, Except.bind]
  have hl : assignLeft m2 = .error .nullDeref := by
    unfold assignLeft
    split_ifs <;> simp [hw, bind, Except.bind]
  simp [assign_dofs, hl, bind, Except.bind]

/-- Instance of the amended C9: two elements on the interval from 0 to 1. -/
theorem C9_unset_mesh_faults_witness :
    (1 ≤ 2) ∧ ∃ m, create 0 1 (2 : Nat) Mesh.blank = .ok m ∧
      ∀ m2 : Mesh, m2.elems = m.elems → assign_dofs m2 = .error .nullDeref :=
  ⟨by decide, C9_unset_mesh_faults 0 1 2 (by decide) Mesh.blank⟩

/-- C10: for `n_elem ≥ 1`, `create(A, B, n_elem)` returns a mesh with `n_elem + 1` vertices,
vertex `i` at `A + i*(B-A)/n_elem` (so vertex 0 is `A`, vertex `n_elem` is `B` and consecutive
vertices are `(B-A)/n_elem` apart), and `n_elem` elements, element `i` having left vertex `i`,
right vertex `i+1`, degree `-1` and no dof array. -/
theorem C10_create_uniform (A B : ℚ) (n : Nat) (hn : 1 ≤ n) (self : Mesh) :
    ∃ m, create A B n self = .ok m ∧ m.n_elem = n ∧ m.vertices.length = n + 1 ∧
      (∀ i : Nat, i ≤ n → m.vertices[i]? = some ⟨A + (i : ℚ) * (B - A) / (n : ℚ)⟩) ∧
      m.vertices[0]? = some ⟨A⟩ ∧ m.vertices[n]? = some ⟨B⟩ ∧
      (∀ i : Nat, i < n → ∃ a b, m.vertices[i]? = some a ∧ m.vertices[i + 1]? = some b ∧
        b.x - a.x = (B - A) / (n : ℚ)) ∧
      m.elems.length = n ∧
      ∀ i : Nat, i < n → m.elems[i]? = some ⟨-1, i, i + 1, none⟩ := by
  obtain ⟨vs, es, hc, hvl, hel, hvs, hes⟩ := create_spec A B n self
  have hn0 : (n : ℚ) ≠ 0 := by exact_mod_cast (by omega : n ≠ 0)
  refine ⟨_, hc, rfl, hvl, ?_, ?_, ?_, ?_, hel, ?_⟩
  · intro i hi
    show vs[i]? = _
    rw [hvs i, if_pos (by omega), mul_div_assoc]
  · show vs[0]? = _
    rw [hvs 0, if_pos (by omega)]
    simp
  · show vs[n]? = _
    rw [hvs n, if_pos (by omega)]
    congr 2
    field_simp
  · intro i hi
    refine ⟨⟨A + (i : ℚ) * ((B - A) / (n : ℚ))⟩,
      ⟨A + ((i + 1 : Nat) : ℚ) * ((B - A) / (n : ℚ))⟩, ?_, ?_, ?_⟩
    · show vs[i]? = _
      rw [hvs i, if_pos (by omega)]
    · show vs[i + 1]? = _
      rw [hvs (i + 1), if_pos (by omega)]
    · simp only
      push_cast
      ring
  · intro i hi
    show es[i]? = _
    rw [hes i, if_pos hi]

/-- Instance of C10: four elements on the interval from 0 to 2. -/
theorem C10_create_uniform_witness :
    (1 ≤ 4) ∧ ∃ m, create 0 2 (4 : Nat) Mesh.blank = .ok m ∧ m.n_elem = (4 : Nat) ∧
      m.vertices.length = 4 + 1 ∧
      (∀ i : Nat, i ≤ 4 → m.vertices[i]? = some ⟨0 + (i : ℚ) * (2 - 0) / ((4 : Nat) : ℚ)⟩) ∧
      m.vertices[0]? = some ⟨0⟩ ∧ m.vertices[4]? = some ⟨2⟩ ∧
      (∀ i : Nat, i < 4 → ∃ a b, m.vertices[i]? = some a ∧ m.vertices[i + 1]? = some b ∧
        b.x - a.x = (2 - 0) / ((4 : Nat) : ℚ)) ∧
      m.elems.length = 4 ∧
      ∀ i : Nat, i < 4 → m.elems[i]? = some ⟨-1, i, i + 1, none⟩ :=
  ⟨by decide, C10_create_uniform 0 2 4 (by decide) Mesh.blank⟩

/-! ## Continuity of the sampled solution (C7) -/

/-- The dof array of element `k` after `assign_dofs`, read with a default. -/
theorem numbered_getD (m1 m : Mesh)
    (hc : ∀ i j : Nat, i < m1.elems.length → (j : Int) ≤ m1.deg i →
      m.dofAt i j = some (m1.finalDof i j))
    (k : Nat) (hk : k < m1.elems.length) (d : List Int) (hd : ∀ j, m.dofAt k j = d[j]?)
    (j : Nat) (hj : (j : Int) ≤ m1.deg k) : d.getD j 0 = m1.finalDof k j := by
  have h1 := hc k j hk hj
  rw [hd j] at h1
  rw [List.getD_eq_getElem?_getD, h1]
  rfl

/-- C7: let the shape functions have the endpoint values of the specification (function 0 is
1 at -1 and 0 at +1, function 1 is 0 at -1 and 1 at +1, every function of index at least 2
vanishes at both ends).  For `n ≥ 2` elements of degree `p ≥ 1`, `create`, `set_poly_orders` and
`assign_dofs` (on an object with any boundary records) return a mesh `m`, and for every
coefficient vector `y` of length `n_dof` and every interior vertex between the elements `i` and
`i+1`, `eval_approx` on element `i` at `x_ref = 1` and on element `i+1` at `x_ref = -1` return
the same `x_phys` and the same `val`, in exact arithmetic. -/
theorem C7_continuous_at_shared_vertex (lob : Nat → ℚ → ℚ) (A B : ℚ) (n : Nat) (p : Int)
    (junk : Nat → Nat → Int) (self : Mesh) (y : List ℚ) (i : Nat)
    (h0 : lob 0 (-1) = 1 ∧ lob 0 1 = 0) (h1 : lob 1 (-1) = 0 ∧ lob 1 1 = 1)
    (hb : ∀ j, 2 ≤ j → lob j (-1) = 0 ∧ lob j 1 = 0)
    (hn : 2 ≤ n) (hp : 1 ≤ p)
    (hy : (y.length : Int) = (n : Int) * p - 1 + (if self.leftDir then 0 else 1) +
      (if self.rightDir then 0 else 1))
    (hi : i + 1 < n) :
    ∃ m e1 e2 x v,
      (create A B n self >>= set_poly_orders p junk >>= assign_dofs) = .ok m ∧
      m.n_dof = (y.length : Int) ∧ m.elems[i]? = some e1 ∧ m.elems[i + 1]? = some e2 ∧
      Linearizer.eval_approx ⟨m⟩ lob e1 1 y = .ok (x, v) ∧
      Linearizer.eval_approx ⟨m⟩ lob e2 (-1) y = .ok (x, v) := by
  obtain ⟨m1, hprep, hwf, hne, hlen, hl, hr, hvs, hes⟩ :=
    prepared_spec A B n p junk self (by omega) hp
  obtain ⟨m, hrun, hs, hnd, hc⟩ := assign_dofs_spec m1 hwf
  have hdeg : ∀ k, k < m1.elems.length → m1.deg k = p := fun k hk => by
    simp only [Mesh.deg, hes k (by omega)]
  have hndof : m.n_dof = (y.length : Int) := by
    rw [hnd, hy, Mesh.finalNDof, bubblesBefore_uniform m1 p hdeg _ (le_refl _),
      Mesh.countVertex, Mesh.countInner, hne, hlen,
      if_congr hl rfl rfl, if_congr hr rfl rfl]
    have : ((((n : Int) - 2).toNat : Nat) : Int) = (n : Int) - 2 := by omega
    rw [this]
    ring
  have hverts : m.vertices = m1.vertices := by
    have h3 := congrArg Mesh.vertices hs
    exact h3
  obtain ⟨e1, d1, he1, hp1, hv11, hv12, hd1, hl1, hc1⟩ :=
    shape_getElem m1 m hs i _ _ (hes i (by omega)) rfl
  obtain ⟨e2, d2, he2, hp2, hv21, hv22, hd2, hl2, hc2⟩ :=
    shape_getElem m1 m hs (i + 1) _ _ (hes (i + 1) (by omega)) rfl
  simp only [List.length_map, List.length_range] at hl1 hl2
  simp only at hp1 hv11 hv12 hp2 hv21 hv22
  have hget1 := numbered_getD m1 m hc i (by omega) d1 hc1
  have hget2 := numbered_getD m1 m hc (i + 1) (by omega) d2 hc2
  have hbound : ∀ k, k < m1.elems.length → ∀ d : List Int, d.length = (p + 1).toNat →
      (∀ j : Nat, (j : Int) ≤ m1.deg k → d.getD j 0 = m1.finalDof k j) →
      ∀ j, j < d.length → d.getD j 0 < (y.length : Int) := by
    intro k hk d hdl hg j hj
    have hjp : (j : Int) ≤ m1.deg k := by
      rw [hdeg k hk]
      omega
    rw [hg j hjp, ← hndof, hnd]
    exact (finalDof_lt m1 hwf k j hk hjp).1
  obtain ⟨s1, s2⟩ := finalDof_shared m1 i (by rw [hne]; omega)
  have hL : (0 : Int) ≤ (if m1.leftDir then 0 else 1) + (i : Int) := by
    split_ifs <;> omega
  have g1 : d1.getD 1 0 = (if m1.leftDir then 0 else 1) + (i : Int) := by
    rw [hget1 1 (by rw [hdeg i (by omega)]; exact_mod_cast hp), s1]
  have g2 : d2.getD 0 0 = (if m1.leftDir then 0 else 1) + (i : Int) := by
    rw [hget2 0 (by rw [hdeg (i + 1) (by omega)]; omega), s2]
  have ev1 := eval_approx_spec ⟨m⟩ lob e1 d1 1 y
    ⟨A + (i : ℚ) * ((B - A) / (n : ℚ))⟩ ⟨A + ((i + 1 : Nat) : ℚ) * ((B - A) / (n : ℚ))⟩ hd1
    (by rw [hl1, hp1]; omega) (hbound i (by omega) d1 hl1 hget1)
    (by
      show m.vertices[e1.v1]? = _
      rw [hverts, hv11]
      exact hvs i (by omega))
    (by
      show m.vertices[e1.v2]? = _
      rw [hverts, hv12]
      exact hvs (i + 1) (by omega))
  have ev2 := eval_approx_spec ⟨m⟩ lob e2 d2 (-1) y
    ⟨A + ((i + 1 : Nat) : ℚ) * ((B - A) / (n : ℚ))⟩
    ⟨A + ((i + 1 + 1 : Nat) : ℚ) * ((B - A) / (n : ℚ))⟩ hd2
    (by rw [hl2, hp2]; omega) (hbound (i + 1) (by omega) d2 hl2 hget2)
    (by
      show m.vertices[e2.v1]? = _
      rw [hverts, hv21]
      exact hvs (i + 1) (by omega))
    (by
      show m.vertices[e2.v2]? = _
      rw [hverts, hv22]
      exact hvs (i + 1 + 1) (by omega))
  rw [evalSum_right lob d1 y (by rw [hl1]; omega) h0.2 h1.2 (fun j hj => (hb j hj).2)
    (by rw [g1]; exact hL), g1] at ev1
  rw [evalSum_left lob d2 y (by rw [hl2]; omega) h0.1 h1.1 (fun j hj => (hb j hj).1)
    (by rw [g2]; exact hL), g2] at ev2
  refine ⟨m, e1, e2, A + ((i + 1 : Nat) : ℚ) * ((B - A) / (n : ℚ)),
    y.getD ((if m1.leftDir then 0 else 1) + (i : Int)).toNat 0, ?_, hndof, he1, he2, ?_, ?_⟩
  · rw [hprep]
    exact hrun
  · rw [ev1]
    congr 2
    ring
  · rw [ev2]
    congr 2
    ring

/-- Instance of C7: two quadratic elements on the interval from 0 to 2, the sample table of
shape functions, five coefficients, the vertex between elements 0 and 1. -/
theorem C7_continuous_at_shared_vertex_witness :
    ((sampleBasis 0 (-1) = 1 ∧ sampleBasis 0 1 = 0) ∧
      (sampleBasis 1 (-1) = 0 ∧ sampleBasis 1 1 = 1) ∧
      (∀ j, 2 ≤ j → sampleBasis j (-1) = 0 ∧ sampleBasis j 1 = 0) ∧ 2 ≤ 2 ∧ (1 : Int) ≤ 2 ∧
      ((([1, 2, 3, 4, 5] : List ℚ).length : Int) = ((2 : Nat) : Int) * 2 - 1 +
        (if Mesh.blank.leftDir then 0 else 1) + (if Mesh.blank.rightDir then 0 else 1)) ∧
      0 + 1 < 2) ∧
    ∃ m e1 e2 x v,
      (create 0 2 (2 : Nat) Mesh.blank >>= set_poly_orders 2 (fun _ _ => 0) >>= assign_dofs) =
        .ok m ∧
      m.n_dof = (([1, 2, 3, 4, 5] : List ℚ).length : Int) ∧ m.elems[0]? = some e1 ∧
      m.elems[0 + 1]? = some e2 ∧
      Linearizer.eval_approx ⟨m⟩ sampleBasis e1 1 [1, 2, 3, 4, 5] = .ok (x, v) ∧
      Linearizer.eval_approx ⟨m⟩ sampleBasis e2 (-1) [1, 2, 3, 4, 5] = .ok (x, v) :=
  have hs0 : sampleBasis 0 (-1) = 1 ∧ sampleBasis 0 1 = 0 := by
    constructor <;> norm_num [sampleBasis]
  have hs1 : sampleBasis 1 (-1) = 0 ∧ sampleBasis 1 1 = 1 := by
    constructor <;> norm_num [sampleBasis]
  have hsb : ∀ j, 2 ≤ j → sampleBasis j (-1) = 0 ∧ sampleBasis j 1 = 0 := fun j hj => by
    have h0 : j ≠ 0 := by omega
    have h1 : j ≠ 1 := by omega
    constructor <;> simp [sampleBasis, h0, h1]
  have hlen : ((([1, 2, 3, 4, 5] : List ℚ).length : Int) = ((2 : Nat) : Int) * 2 - 1 +
      (if Mesh.blank.leftDir then 0 else 1) + (if Mesh.blank.rightDir then 0 else 1)) := by
    decide
  ⟨⟨hs0, hs1, hsb, by decide, by decide, hlen, by decide⟩,
    C7_continuous_at_shared_vertex sampleBasis 0 2 2 2 (fun _ _ => 0) Mesh.blank
      [1, 2, 3, 4, 5] 0 hs0 hs1 hsb (by decide) (by decide) hlen (by decide)⟩

/-! ## Dependence on the boundary records (C14) -/

theorem deg_of_map_p (m1 m2 : Mesh) (hp : m1.elems.map Element.p = m2.elems.map Element.p)
    (k : Nat) : m1.deg k = m2.deg k := by
  have h := congrArg (fun l => l[k]?) hp
  simp only [List.getElem?_map] at h
  unfold Mesh.deg
  cases h1 : m1.elems[k]? with
  | none =>
    cases h2 : m2.elems[k]? with
    | none => rfl
    | some e2 => simp [h1, h2] at h
  | some e1 =>
    cases h2 : m2.elems[k]? with
    | none => simp [h1, h2] at h
    | some e2 =>
      simp only [h1, h2, Option.map_some', Option.some.injEq] at h
      exact h

theorem finalDof_congr (m m' : Mesh) (hn : m'.n_elem = m.n_elem)
    (hl : m'.leftDir ↔ m.leftDir) (hr : m'.rightDir ↔ m.rightDir)
    (hd : ∀ k, m'.deg k = m.deg k) (i j : Nat) : m'.finalDof i j = m.finalDof i j := by
  have hb : ∀ k, m'.bubblesBefore k = m.bubblesBefore k := fun k => by
    unfold Mesh.bubblesBefore
    exact Finset.sum_congr rfl (fun x _ => by rw [hd x])
  have hl1 : (if m'.leftDir then (0 : Int) else 1) = if m.leftDir then 0 else 1 :=
    if_congr hl rfl rfl
  have hl2 : (if m'.leftDir then (-1 : Int) else 0) = if m.leftDir then -1 else 0 :=
    if_congr hl rfl rfl
  have hr1 : (if m'.rightDir then (0 : Int) else 1) = if m.rightDir then 0 else 1 :=
    if_congr hr rfl rfl
  have hci : m'.countInner = m.countInner := by
    simp only [Mesh.countInner, hl1, hn]
  have hr2 : (if m'.rightDir then (-1 : Int) else m.countInner + 1) =
      if m.rightDir then -1 else m.countInner + 1 :=
    if_congr hr rfl rfl
  simp only [Mesh.finalDof, Mesh.countVertex, hci, hl1, hl2, hr1, hr2, hb, hn]

theorem finalNDof_congr (m m' : Mesh) (hn : m'.n_elem = m.n_elem)
    (hlen : m'.elems.length = m.elems.length)
    (hl : m'.leftDir ↔ m.leftDir) (hr : m'.rightDir ↔ m.rightDir)
    (hd : ∀ k, m'.deg k = m.deg k) : m'.finalNDof = m.finalNDof := by
  have hb : ∀ k, m'.bubblesBefore k = m.bubblesBefore k := fun k => by
    unfold Mesh.bubblesBefore
    exact Finset.sum_congr rfl (fun x _ => by rw [hd x])
  have hl1 : (if m'.leftDir then (0 : Int) else 1) = if m.leftDir then 0 else 1 :=
    if_congr hl rfl rfl
  have hr1 : (if m'.rightDir then (0 : Int) else 1) = if m.rightDir then 0 else 1 :=
    if_congr hr rfl rfl
  simp only [Mesh.finalNDof, Mesh.countVertex, Mesh.countInner, hl1, hr1, hb, hn, hlen]

/-- Two well-formed meshes with the same cells hold the same dof arrays. -/
theorem dofs_ext (r1 r2 : Mesh) (h1 : r1.wf) (h2 : r2.wf)
    (hlen : r1.elems.length = r2.elems.length)
    (hc : ∀ i j, r1.dofAt i j = r2.dofAt i j) :
    r1.elems.map Element.dof = r2.elems.map Element.dof := by
  apply List.ext_getElem?
  intro i
  simp only [List.getElem?_map]
  by_cases hi : i < r1.elems.length
  · have hi2 : i < r2.elems.length := by omega
    rw [List.getElem?_eq_getElem hi, List.getElem?_eq_getElem hi2]
    simp only [Option.map_some', Option.some.injEq]
    have w1 := (h1.2.2 r1.elems[i] (List.getElem_mem hi)).2
    have w2 := (h2.2.2 r2.elems[i] (List.getElem_mem hi2)).2
    cases hd1 : (r1.elems[i]).dof with
    | none => simp [hd1] at w1
    | some d1 =>
      cases hd2 : (r2.elems[i]).dof with
      | none => simp [hd2] at w2
      | some d2 =>
        congr 1
        apply List.ext_getElem?
        intro j
        have := hc i j
        simpa [Mesh.dofAt, List.getElem?_eq_getElem hi, List.getElem?_eq_getElem hi2, hd1,
          hd2] using this
  · have hi2 : ¬ i < r2.elems.length := by omega
    rw [List.getElem?_eq_none (Nat.le_of_not_lt hi), List.getElem?_eq_none (Nat.le_of_not_lt hi2)]

/-- The cells of a numbered mesh, inside and outside the dof arrays. -/
theorem assign_dofs_cells (m : Mesh) (hwf : m.wf) :
    ∃ m', assign_dofs m = .ok m' ∧ m'.shape = m.shape ∧ m'.wf ∧ m'.n_dof = m.finalNDof ∧
      ∀ i j : Nat, m'.dofAt i j =
        if i < m.elems.length ∧ (j : Int) ≤ m.deg i then some (m.finalDof i j) else none := by
  obtain ⟨m', e, hs, hn, hc⟩ := assign_dofs_spec m hwf
  have hwf' := shape_wf m m' hs hwf
  refine ⟨m', e, hs, hwf', hn, ?_⟩
  intro i j
  by_cases h : i < m.elems.length ∧ (j : Int) ≤ m.deg i
  · rw [if_pos h]
    exact hc i j h.1 h.2
  · rw [if_neg h]
    cases hx : m'.dofAt i j with
    | none => rfl
    | some x =>
      exfalso
      obtain ⟨hi, hj⟩ := wf_cell_inv m' hwf' i j (by rw [hx]; rfl)
      rw [shape_length m m' hs] at hi
      rw [shape_deg m m' hs] at hj
      exact h ⟨hi, hj⟩

/-- C14: `assign_dofs` reads the boundary records only through the Dirichlet flags of
equation 0.  Two meshes ready for numbering that agree on `n_elem`, on the element degrees and
on `dir_bc_left_active[0]`, `dir_bc_right_active[0]`, whatever their other flags and their
recorded values, get the same dof arrays and the same `n_dof`. -/
theorem C14_only_flags_of_equation_zero (m1 m2 : Mesh) (h1 : m1.wf) (h2 : m2.wf)
    (hn : m1.n_elem = m2.n_elem) (hp : m1.elems.map Element.p = m2.elems.map Element.p)
    (hl : m1.dir_bc_left_active 0 = m2.dir_bc_left_active 0)
    (hr : m1.dir_bc_right_active 0 = m2.dir_bc_right_active 0) :
    ∃ r1 r2, assign_dofs m1 = .ok r1 ∧ assign_dofs m2 = .ok r2 ∧
      r1.elems.map Element.dof = r2.elems.map Element.dof ∧ r1.n_dof = r2.n_dof := by
  obtain ⟨r1, e1, s1, w1, n1, c1⟩ := assign_dofs_cells m1 h1
  obtain ⟨r2, e2, s2, w2, n2, c2⟩ := assign_dofs_cells m2 h2
  have hlen : m1.elems.length = m2.elems.length := by
    simpa using congrArg List.length hp
  have hdeg := deg_of_map_p m1 m2 hp
  have hL : m1.leftDir ↔ m2.leftDir := by simp only [Mesh.leftDir, hl]
  have hR : m1.rightDir ↔ m2.rightDir := by simp only [Mesh.rightDir, hr]
  refine ⟨r1, r2, e1, e2, ?_, ?_⟩
  · apply dofs_ext r1 r2 w1 w2
    · rw [shape_length m1 r1 s1, shape_length m2 r2 s2, hlen]
    · intro i j
      rw [c1 i j, c2 i j, hlen, hdeg i, finalDof_congr m2 m1 hn hL hR hdeg]
  · rw [n1, n2, finalNDof_congr m2 m1 hn hlen hL hR hdeg]

/-- Instance of C14: the mesh of three cubic elements, and the same mesh after
`set_dirichlet_bc_right(1, 7)` and `set_dirichlet_bc_left(1, 5)`, which change the flags and
the values of equation 1 only. -/
theorem C14_only_flags_of_equation_zero_witness :
    (cubicMesh.wf ∧ otherRecords.wf ∧ cubicMesh.n_elem = otherRecords.n_elem ∧
      cubicMesh.elems.map Element.p = otherRecords.elems.map Element.p ∧
      cubicMesh.dir_bc_left_active 0 = otherRecords.dir_bc_left_active 0 ∧
      cubicMesh.dir_bc_right_active 0 = otherRecords.dir_bc_right_active 0 ∧
      cubicMesh.dir_bc_left_active 1 ≠ otherRecords.dir_bc_left_active 1) ∧
    ∃ r1 r2, assign_dofs cubicMesh = .ok r1 ∧ assign_dofs otherRecords = .ok r2 ∧
      r1.elems.map Element.dof = r2.elems.map Element.dof ∧ r1.n_dof = r2.n_dof :=
  ⟨⟨by decide, by decide, by decide, by decide, by decide, by decide, by decide⟩,
    C14_only_flags_of_equation_zero cubicMesh otherRecords
      (by decide) (by decide) (by decide) (by decide) (by decide) (by decide)⟩

/-! ## Bubble ids (C15) -/

theorem vertexPass_spec (m : Mesh) (hwf : m.wf) :
    ∃ m3, vertexPass m = .ok (m3, m.countVertex) := by
  obtain ⟨m1, r1, s1, _⟩ := assignLeft_spec m hwf
  obtain ⟨m2, r2, s2, _⟩ := vertexLoop_spec m m1 hwf s1 (if m.leftDir then 0 else 1)
  obtain ⟨m3, r3, _, _⟩ := assignRight_spec m m2 hwf s2
    ((if m.leftDir then 0 else 1) + ((m.n_elem - 2).toNat : Int))
  exact ⟨m3, by
    simp only [vertexPass, r1, r2, r3, bind, Except.bind, Mesh.countVertex, Mesh.countInner]⟩

theorem finalDof_vertex_lt (m : Mesh) (hwf : m.wf) (i j : Nat) (hi : i < m.elems.length)
    (hj : j ≤ 1) : m.finalDof i j < m.countVertex := by
  obtain ⟨hN, hNe⟩ := wf_length m hwf
  have hj' : j = 0 ∨ j = 1 := by omega
  unfold Mesh.finalDof Mesh.countVertex Mesh.countInner
  rcases hj' with rfl | rfl <;> simp only [one_ne_zero, if_true, if_false] <;>
    split_ifs <;> omega

theorem finalDof_bubble (m : Mesh) (i j : Nat) (hj : 2 ≤ j) :
    m.finalDof i j = m.countVertex + m.bubblesBefore i + ((j : Int) - 2) := by
  have h0 : ¬ j = 0 := by omega
  have h1 : ¬ j = 1 := by omega
  simp only [Mesh.finalDof, h0, h1, if_false]

theorem bubble_lt_next (m : Mesh) (hwf : m.wf) (i i' j : Nat) (hi : i < i')
    (hi' : i' ≤ m.elems.length) (hj : (j : Int) ≤ m.deg i) :
    m.bubblesBefore i + ((j : Int) - 2) < m.bubblesBefore i' := by
  have h1 := bubblesBefore_mono m hwf (i + 1) i' (by omega) hi'
  rw [bubblesBefore_succ] at h1
  omega

/-- C15: on a mesh with `n ≥ 1` elements of degrees `p_i ≥ 1`, let `V` be the value of `count`
when the vertex pass of `assign_dofs` ends.  Then `elems[i].dof[j] = V + ∑_{k<i} (p_k - 1) +
(j - 2)` for every element `i` and every `2 ≤ j ≤ p_i`; every bubble id is greater than every
id in a vertex slot, and two different bubble slots (of one element or of two) never hold the
same id. -/
theorem C15_bubbles_after_vertices (m : Mesh) (hwf : m.wf) :
    ∃ m' s V, vertexPass m = .ok (s, V) ∧ assign_dofs m = .ok m' ∧
      (∀ i j : Nat, i < m.elems.length → 2 ≤ j → (j : Int) ≤ m.deg i →
        m'.dofAt i j = some (V + ∑ k in Finset.range i, (m.deg k - 1) + ((j : Int) - 2))) ∧
      (∀ i j i' j' : Nat, ∀ g g' : Int, 2 ≤ j → j' ≤ 1 →
        m'.dofAt i j = some g → m'.dofAt i' j' = some g' → g' < g) ∧
      (∀ i j i' j' : Nat, ∀ g : Int, 2 ≤ j → 2 ≤ j' →
        m'.dofAt i j = some g → m'.dofAt i' j' = some g → i = i' ∧ j = j') := by
  obtain ⟨s, hv⟩ := vertexPass_spec m hwf
  obtain ⟨m', e, _, _, _, hc⟩ := assign_dofs_cells m hwf
  have cell : ∀ i j : Nat, ∀ g : Int, m'.dofAt i j = some g →
      i < m.elems.length ∧ (j : Int) ≤ m.deg i ∧ g = m.finalDof i j := by
    intro i j g hg
    rw [hc i j] at hg
    by_cases h : i < m.elems.length ∧ (j : Int) ≤ m.deg i
    · rw [if_pos h] at hg
      injection hg with hg
      exact ⟨h.1, h.2, hg.symm⟩
    · rw [if_neg h] at hg
      exact absurd hg (by simp)
  refine ⟨m', s, m.countVertex, hv, e, ?_, ?_, ?_⟩
  · intro i j hi hj hjp
    rw [hc i j, if_pos ⟨hi, hjp⟩, finalDof_bubble m i j hj]
    rfl
  · intro i j i' j' g g' hj hj' hg hg'
    obtain ⟨hi, _, rfl⟩ := cell i j g hg
    obtain ⟨hi', _, rfl⟩ := cell i' j' g' hg'
    have h1 := finalDof_vertex_lt m hwf i' j' hi' hj'
    have h2 := bubblesBefore_nonneg m hwf i (by omega)
    rw [finalDof_bubble m i j hj]
    omega
  · intro i j i' j' g hj hj' hg hg'
    obtain ⟨hi, hjp, h1⟩ := cell i j g hg
    obtain ⟨hi', hjp', h2⟩ := cell i' j' g hg'
    rw [finalDof_bubble m i j hj] at h1
    rw [finalDof_bubble m i' j' hj'] at h2
    have hii : i = i' := by
      by_contra hne
      rcases Nat.lt_or_gt_of_ne hne with hlt | hgt
      · have := bubble_lt_next m hwf i i' j hlt (by omega) hjp
        omega
      · have := bubble_lt_next m hwf i' i j' hgt (by omega) hjp'
        omega
    subst hii
    exact ⟨rfl, by omega⟩

/-- Instance of C15 on the mesh of three cubic elements. -/
theorem C15_bubbles_after_vertices_witness :
    cubicMesh.wf ∧ ∃ m' s V, vertexPass cubicMesh = .ok (s, V) ∧ assign_dofs cubicMesh = .ok m' ∧
      (∀ i j : Nat, i < cubicMesh.elems.length → 2 ≤ j → (j : Int) ≤ cubicMesh.deg i →
        m'.dofAt i j =
          some (V + ∑ k in Finset.range i, (cubicMesh.deg k - 1) + ((j : Int) - 2))) ∧
      (∀ i j i' j' : Nat, ∀ g g' : Int, 2 ≤ j → j' ≤ 1 →
        m'.dofAt i j = some g → m'.dofAt i' j' = some g' → g' < g) ∧
      (∀ i j i' j' : Nat, ∀ g : Int, 2 ≤ j → 2 ≤ j' →
        m'.dofAt i j = some g → m'.dofAt i' j' = some g → i = i' ∧ j = j') :=
  ⟨by decide, C15_bubbles_after_vertices cubicMesh (by decide)⟩

/-! ## Boundary records (C16, C17) -/

/-- C16: `set_dirichlet_bc_left(eq, val)` sets `dir_bc_left_active[eq] = 1` and
`dir_bc_left_values[eq] = val`, a later call for the same equation overwrites the value, and
the call leaves alone the left records of the other equations, all right records, `n_elem`,
the vertices, the elements (degrees and dof arrays) and `n_dof`; `set_dirichlet_bc_right` does
the same with left and right exchanged. -/
theorem C16_set_dirichlet_frame (eq : Nat) (val val' : ℚ) (m : Mesh) :
    ((∀ k, (set_dirichlet_bc_left eq val m).dir_bc_left_active k =
        if k = eq then 1 else m.dir_bc_left_active k) ∧
      (∀ k, (set_dirichlet_bc_left eq val m).dir_bc_left_values k =
        if k = eq then val else m.dir_bc_left_values k) ∧
      (set_dirichlet_bc_left eq val' (set_dirichlet_bc_left eq val m)).dir_bc_left_values eq
        = val' ∧
      (set_dirichlet_bc_left eq val m).dir_bc_right_active = m.dir_bc_right_active ∧
      (set_dirichlet_bc_left eq val m).dir_bc_right_values = m.dir_bc_right_values ∧
      (set_dirichlet_bc_left eq val m).n_elem = m.n_elem ∧
      (set_dirichlet_bc_left eq val m).vertices = m.vertices ∧
      (set_dirichlet_bc_left eq val m).elems = m.elems ∧
      (set_dirichlet_bc_left eq val m).n_dof = m.n_dof) ∧
    ((∀ k, (set_dirichlet_bc_right eq val m).dir_bc_right_active k =
        if k = eq then 1 else m.dir_bc_right_active k) ∧
      (∀ k, (set_dirichlet_bc_right eq val m).dir_bc_right_values k =
        if k = eq then val else m.dir_bc_right_values k) ∧
      (set_dirichlet_bc_right eq val' (set_dirichlet_bc_right eq val m)).dir_bc_right_values eq
        = val' ∧
      (set_dirichlet_bc_right eq val m).dir_bc_left_active = m.dir_bc_left_active ∧
      (set_dirichlet_bc_right eq val m).dir_bc_left_values = m.dir_bc_left_values ∧
      (set_dirichlet_bc_right eq val m).n_elem = m.n_elem ∧
      (set_dirichlet_bc_right eq val m).vertices = m.vertices ∧
      (set_dirichlet_bc_right eq val m).elems = m.elems ∧
      (set_dirichlet_bc_right eq val m).n_dof = m.n_dof) := by
  refine ⟨⟨?_, ?_, ?_, rfl, rfl, rfl, rfl, rfl, rfl⟩, ⟨?_, ?_, ?_, rfl, rfl, rfl, rfl, rfl, rfl⟩⟩
  · intro k
    simp only [set_dirichlet_bc_left, Function.update_apply]
  · intro k
    simp only [set_dirichlet_bc_left, Function.update_apply]
  · simp only [set_dirichlet_bc_left, Function.update_same]
  · intro k
    simp only [set_dirichlet_bc_right, Function.update_apply]
  · intro k
    simp only [set_dirichlet_bc_right, Function.update_apply]
  · simp only [set_dirichlet_bc_right, Function.update_same]

/-- C17, on every mesh object: after the four boundary calls of the `system` driver the value
recorded for equation 0 is 1 at both ends (the second call of each pair overwrites the 0 of the
first), and the records of equation 1 are the ones the object had before: no call names
equation 1.  On a fresh object equation 1 therefore has no Dirichlet condition, although the
header of the driver documents `u(A) = u(B) = 0`, `v(A) = v(B) = 1`. -/
theorem C17_system_boundary_records (m : Mesh) :
    (systemBoundaryCalls m).dir_bc_left_active 0 = 1 ∧
    (systemBoundaryCalls m).dir_bc_left_values 0 = 1 ∧
    (systemBoundaryCalls m).dir_bc_right_active 0 = 1 ∧
    (systemBoundaryCalls m).dir_bc_right_values 0 = 1 ∧
    (systemBoundaryCalls m).dir_bc_left_active 1 = m.dir_bc_left_active 1 ∧
    (systemBoundaryCalls m).dir_bc_left_values 1 = m.dir_bc_left_values 1 ∧
    (systemBoundaryCalls m).dir_bc_right_active 1 = m.dir_bc_right_active 1 ∧
    (systemBoundaryCalls m).dir_bc_right_values 1 = m.dir_bc_right_values 1 ∧
    (systemBoundaryCalls Mesh.blank).dir_bc_left_values 0 ≠ 0 ∧
    (systemBoundaryCalls Mesh.blank).dir_bc_left_active 1 = 0 ∧
    (systemBoundaryCalls Mesh.blank).dir_bc_right_active 1 = 0 := by
  simp [systemBoundaryCalls, set_dirichlet_bc_left, set_dirichlet_bc_right, Mesh.blank,
    Function.update_apply]

/-! ## Bounds of the dof values and eliminated slots (C18, C19) -/

theorem finalNDof_pos (m : Mesh) (hwf : m.wf) : 0 < m.finalNDof := by
  have hb := bubblesBefore_nonneg m hwf m.elems.length (le_refl _)
  unfold Mesh.finalNDof Mesh.countVertex Mesh.countInner
  split_ifs <;> omega

/-- The dof array of element `i` of a numbered mesh: its length and its values. -/
theorem numbered_array (m m' : Mesh) (hwf : m.wf) (hs : m'.shape = m.shape)
    (hc : ∀ i j : Nat, i < m.elems.length → (j : Int) ≤ m.deg i →
      m'.dofAt i j = some (m.finalDof i j))
    (i : Nat) (e : Element) (he : m'.elems[i]? = some e) :
    i < m.elems.length ∧ e.p = m.deg i ∧ ∃ d, e.dof = some d ∧ (d.length : Int) = e.p + 1 ∧
      ∀ j, j < d.length → d.getD j 0 = m.finalDof i j := by
  have hwf' := shape_wf m m' hs hwf
  have hi' : i < m'.elems.length := (List.getElem?_eq_some_iff.mp he).1
  have hi : i < m.elems.length := by rw [← shape_length m m' hs]; exact hi'
  have hmem : e ∈ m'.elems := by
    rw [← (List.getElem?_eq_some_iff.mp he).2]
    exact List.getElem_mem hi'
  obtain ⟨_, hlen⟩ := hwf'.2.2 e hmem
  have hp : e.p = m.deg i := by
    rw [← shape_deg m m' hs i]
    simp only [Mesh.deg, he]
  cases hd : e.dof with
  | none => simp [hd] at hlen
  | some d =>
    simp only [hd, Option.map_some', Option.some.injEq] at hlen
    refine ⟨hi, hp, d, rfl, hlen, ?_⟩
    intro j hj
    have h1 := hc i j hi (by rw [← hp]; omega)
    simp only [Mesh.dofAt, he, hd] at h1
    rw [List.getD_eq_getElem?_getD, h1]
    rfl

/-- C18: after `assign_dofs` on a mesh with `n ≥ 1` elements of degree at least 1, every value
`d` in a dof cell satisfies `-1 ≤ d < n_dof` (and `n_dof` is positive), so that for a
coefficient vector `y` of length `n_dof` the summation loop of `eval_approx` runs to its end on
every element: no read `y[e->dof[i]]` is out of bounds. -/
theorem C18_dof_values_in_range (m : Mesh) (hwf : m.wf) :
    ∃ m', assign_dofs m = .ok m' ∧ 0 < m'.n_dof ∧
      (∀ i j : Nat, ∀ d : Int, m'.dofAt i j = some d → -1 ≤ d ∧ d < m'.n_dof) ∧
      ∀ (lob : Nat → ℚ → ℚ) (x : ℚ) (y : List ℚ), (y.length : Int) = m'.n_dof →
        ∀ e ∈ m'.elems, ∃ v, forRange 0 (e.p + 1) (evalBody lob e x y) 0 = .ok v := by
  obtain ⟨m', e, hs, hn, hc⟩ := assign_dofs_spec m hwf
  have hwf' := shape_wf m m' hs hwf
  refine ⟨m', e, by rw [hn]; exact finalNDof_pos m hwf, ?_, ?_⟩
  · intro i j d hd
    obtain ⟨hi, hj⟩ := wf_cell_inv m' hwf' i j (by rw [hd]; rfl)
    rw [shape_length m m' hs] at hi
    rw [shape_deg m m' hs] at hj
    rw [hc i j hi hj] at hd
    injection hd with hd
    rw [← hd, hn]
    have := finalDof_lt m hwf i j hi hj
    exact ⟨this.2, this.1⟩
  · intro lob x y hy el hmem
    obtain ⟨i, hi, rfl⟩ := List.getElem_of_mem hmem
    obtain ⟨hi0, hp, d, hd, hlen, hval⟩ :=
      numbered_array m m' hwf hs hc i _ (List.getElem?_eq_getElem hi)
    refine ⟨_, evalLoop_spec lob _ d x y hd hlen ?_⟩
    intro j hj
    rw [hval j hj, hy, hn]
    exact (finalDof_lt m hwf i j hi0 (by rw [← hp]; omega)).1

/-- Instance of C18 on the mesh of three cubic elements. -/
theorem C18_dof_values_in_range_witness :
    cubicMesh.wf ∧ ∃ m', assign_dofs cubicMesh = .ok m' ∧ 0 < m'.n_dof ∧
      (∀ i j : Nat, ∀ d : Int, m'.dofAt i j = some d → -1 ≤ d ∧ d < m'.n_dof) ∧
      ∀ (lob : Nat → ℚ → ℚ) (x : ℚ) (y : List ℚ), (y.length : Int) = m'.n_dof →
        ∀ e ∈ m'.elems, ∃ v, forRange 0 (e.p + 1) (evalBody lob e x y) 0 = .ok v :=
  ⟨by decide, C18_dof_values_in_range cubicMesh (by decide)⟩

/-- C19: let shape function 1 and every shape function of index at least 2 vanish at
`x_ref = -1`.  On a mesh with `n ≥ 2` elements of degree at least 1, after
`set_dirichlet_bc_left(0, g)` with any value `g` and `assign_dofs`, the left slot of the first
element is the sentinel `-1`, and for every coefficient vector `y` of length `n_dof`,
`eval_approx` on the first element at `x_ref = -1` returns `val = 0`: the recorded value `g`
does not show at the boundary. -/
theorem C19_eliminated_slot_contributes_nothing (lob : Nat → ℚ → ℚ) (m : Mesh) (g : ℚ)
    (e0 : Element) (a b : Vertex) (hwf : m.wf) (hn : 2 ≤ m.n_elem)
    (h1 : lob 1 (-1) = 0) (hb : ∀ j, 2 ≤ j → lob j (-1) = 0)
    (he0 : m.elems[0]? = some e0) (ha : m.vertices[e0.v1]? = some a)
    (hvb : m.vertices[e0.v2]? = some b) :
    ∃ m' e, assign_dofs (set_dirichlet_bc_left 0 g m) = .ok m' ∧ m'.elems[0]? = some e ∧
      m'.dofAt 0 0 = some (-1) ∧ 0 < m'.n_dof ∧
      ∀ y : List ℚ, (y.length : Int) = m'.n_dof →
        ∃ x, Linearizer.eval_approx ⟨m'⟩ lob e (-1) y = .ok (x, 0) := by
  obtain ⟨m0, hm0⟩ : ∃ m0, m0 = set_dirichlet_bc_left 0 g m := ⟨_, rfl⟩
  have hwf0 : m0.wf := by rw [hm0]; exact hwf
  have hl : m0.leftDir := by
    rw [hm0]
    simp [Mesh.leftDir, set_dirichlet_bc_left]
  have hn0 : m0.n_elem = m.n_elem := by rw [hm0]; rfl
  have hel0 : m0.elems = m.elems := by rw [hm0]; rfl
  have hv0 : m0.vertices = m.vertices := by rw [hm0]; rfl
  rw [← hm0]
  obtain ⟨m', e, hs, hnd, hc⟩ := assign_dofs_spec m0 hwf0
  obtain ⟨hN, hNe⟩ := wf_length m0 hwf0
  have hd0 : ∃ d0, e0.dof = some d0 := by
    have hmem : e0 ∈ m0.elems := by
      rw [hel0, ← (List.getElem?_eq_some_iff.mp he0).2]
      exact List.getElem_mem (List.getElem?_eq_some_iff.mp he0).1
    obtain ⟨_, hlen⟩ := hwf0.2.2 e0 hmem
    cases hd : e0.dof with
    | none => simp [hd] at hlen
    | some d => exact ⟨d, rfl⟩
  obtain ⟨d0, hd0⟩ := hd0
  obtain ⟨el, d, hel, hp, hv1, hv2, hd, _, _⟩ :=
    shape_getElem m0 m' hs 0 e0 d0 (by rw [hel0]; exact he0) hd0
  obtain ⟨hi0, hpd, d', hd', hlen, hval⟩ := numbered_array m0 m' hwf0 hs hc 0 el hel
  have hdd : d' = d := by
    rw [hd] at hd'
    injection hd' with hd'
    exact hd'.symm
  subst hdd
  have hdeg := wf_deg m0 hwf0 0 hi0
  have hfirst : m0.finalDof 0 0 = -1 := by
    have hne : ¬ (1 : Int) = m0.n_elem := by omega
    simp [Mesh.finalDof, hne, hl]
  have hverts : m'.vertices = m.vertices := by
    have h3 := congrArg Mesh.vertices hs
    exact h3.trans hv0
  refine ⟨m', el, e, hel, ?_, by rw [hnd]; exact finalNDof_pos m0 hwf0, ?_⟩
  · rw [hc 0 0 hi0 (by omega), hfirst]
  · intro y hy
    have hbound : ∀ j, j < d'.length → d'.getD j 0 < (y.length : Int) := by
      intro j hj
      rw [hval j hj, hy, hnd]
      exact (finalDof_lt m0 hwf0 0 j hi0 (by rw [← hpd]; omega)).1
    have ev := eval_approx_spec ⟨m'⟩ lob el d' (-1) y a b hd hlen hbound
      (by
        show m'.vertices[el.v1]? = _
        rw [hverts, hv1]
        exact ha)
      (by
        show m'.vertices[el.v2]? = _
        rw [hverts, hv2]
        exact hvb)
    have hzero : evalSum lob d' (-1) y = 0 := by
      unfold evalSum
      apply Finset.sum_eq_zero
      intro j hj
      have hjl : j < d'.length := Finset.mem_range.mp hj
      by_cases hj0 : j = 0
      · subst hj0
        have : ¬ (0 : Int) ≤ d'.getD 0 0 := by
          rw [hval 0 hjl, hfirst]
          omega
        rw [if_neg this]
      · by_cases hj1 : j = 1
        · subst hj1
          rw [h1, mul_zero, ite_self]
        · rw [hb j (by omega), mul_zero, ite_self]
    rw [hzero] at ev
    exact ⟨_, ev⟩

/-- Instance of C19: the mesh of three cubic elements, the sample table of shape functions,
the recorded value 7. -/
theorem C19_eliminated_slot_contributes_nothing_witness :
    (cubicMesh.wf ∧ 2 ≤ cubicMesh.n_elem ∧ sampleBasis 1 (-1) = 0 ∧
      (∀ j, 2 ≤ j → sampleBasis j (-1) = 0) ∧
      cubicMesh.elems[0]? = some ⟨3, 0, 1, some [0, 0, 0, 0]⟩ ∧
      cubicMesh.vertices[(⟨3, 0, 1, some [0, 0, 0, 0]⟩ : Element).v1]? = some ⟨0⟩ ∧
      cubicMesh.vertices[(⟨3, 0, 1, some [0, 0, 0, 0]⟩ : Element).v2]? = some ⟨1⟩) ∧
    ∃ m' e, assign_dofs (set_dirichlet_bc_left 0 7 cubicMesh) = .ok m' ∧
      m'.elems[0]? = some e ∧ m'.dofAt 0 0 = some (-1) ∧ 0 < m'.n_dof ∧
      ∀ y : List ℚ, (y.length : Int) = m'.n_dof →
        ∃ x, Linearizer.eval_approx ⟨m'⟩ sampleBasis e (-1) y = .ok (x, 0) :=
  have hs1 : sampleBasis 1 (-1) = 0 := by norm_num [sampleBasis]
  have hsb : ∀ j, 2 ≤ j → sampleBasis j (-1) = 0 := fun j hj => by
    have h0 : j ≠ 0 := by omega
    have h1 : j ≠ 1 := by omega
    simp [sampleBasis, h0, h1]
  ⟨⟨by decide, by decide, hs1, hsb, rfl, rfl, rfl⟩,
    C19_eliminated_slot_contributes_nothing sampleBasis cubicMesh 7 _ _ _ (by decide)
      (by decide) hs1 hsb rfl rfl rfl⟩

/-! ## Sampling for the plot (C11) -/

theorem samplable_eval (l : Linearizer) (lob : Nat → ℚ → ℚ) (y : List ℚ) (e : Element)
    (h : e.samplable l.mesh.vertices y) (x : ℚ) :
    ∃ a b v, l.mesh.vertices[e.v1]? = some a ∧ l.mesh.vertices[e.v2]? = some b ∧
      l.eval_approx lob e x y = .ok ((a.x + b.x) / 2 + x * (b.x - a.x) / 2, v) := by
  obtain ⟨h1, h2, hlen, hg⟩ := h
  cases hd : e.dof with
  | none => simp [hd] at hlen
  | some d =>
    simp only [hd, Option.map_some', Option.some.injEq] at hlen
    simp only [hd, Option.getD_some] at hg
    have hy : ∀ j, j < d.length → d.getD j 0 < (y.length : Int) := by
      intro j hj
      apply hg
      rw [List.getD_eq_getElem?_getD, List.getElem?_eq_getElem hj]
      exact List.getElem_mem hj
    exact ⟨_, _, _, List.getElem?_eq_getElem h1, List.getElem?_eq_getElem h2,
      eval_approx_spec l lob e d x y _ _ hd hlen hy (List.getElem?_eq_getElem h1)
        (List.getElem?_eq_getElem h2)⟩

/-- The example mesh `cubicNumbered` is what `assign_dofs` returns on `cubicMesh`. -/
theorem cubicNumbered_eq : assign_dofs cubicMesh = .ok cubicNumbered := by
  rfl

/-- One run of the loop body of `plot_solution` appends the sample of element `m` at step
`i`. -/
theorem plotBody_spec (l : Linearizer) (lob : Nat → ℚ → ℚ) (y : List ℚ) (s : Nat) (hs : 1 ≤ s)
    (hl : l.samplable y) (m i : Nat) (hm : m < l.mesh.elems.length) (hi : i ≤ s)
    (out : List (ℚ × ℚ)) :
    ∃ line, plotBody l lob y (2 / ((s : Int) : ℚ)) m i out = .ok (out ++ [line]) ∧
      IsSample l lob y s m i (some line) := by
  have hmem : l.mesh.elems[m] ∈ l.mesh.elems := List.getElem_mem hm
  have hread : readAt l.mesh.elems (m : Int) = .ok l.mesh.elems[m] :=
    readAt_nat _ _ _ (List.getElem?_eq_getElem hm)
  have hs0 : (s : ℚ) ≠ 0 := by exact_mod_cast (by omega : s ≠ 0)
  obtain ⟨a, b, v, ha, hb, hev⟩ := samplable_eval l lob y _ (hl.2 _ hmem)
    (-1 + 2 * (i : ℚ) / (s : ℚ))
  have hx : (a.x + b.x) / 2 + (-1 + 2 * (i : ℚ) / (s : ℚ)) * (b.x - a.x) / 2 =
      a.x + (i : ℚ) / (s : ℚ) * (b.x - a.x) := by
    field_simp
    ring
  rw [hx] at hev
  have href : (-1 : ℚ) + (i : ℚ) * (2 / ((s : Int) : ℚ)) = -1 + 2 * (i : ℚ) / (s : ℚ) := by
    push_cast
    ring
  refine ⟨(a.x + (i : ℚ) / (s : ℚ) * (b.x - a.x), v), ?_,
    l.mesh.elems[m], a, b, _, v, List.getElem?_eq_getElem hm, ha, hb, hev, rfl, rfl, ?_, ?_⟩
  · simp only [plotBody, hread, href, hev, bind, Except.bind, pure, Except.pure]
  · intro h0
    subst h0
    simp
  · intro hlast
    subst hlast
    rw [div_self hs0]
    ring

/-- The inner loop of `plot_solution` appends the `s + 1` samples of element `m`. -/
theorem plotInner_spec (l : Linearizer) (lob : Nat → ℚ → ℚ) (y : List ℚ) (s : Nat)
    (hs : 1 ≤ s) (hl : l.samplable y) (m : Nat) (hm : m < l.mesh.elems.length)
    (out0 : List (ℚ × ℚ)) :
    ∃ new, forRange 0 ((s : Int) + 1) (plotBody l lob y (2 / ((s : Int) : ℚ)) m) out0 =
        .ok (out0 ++ new) ∧ new.length = s + 1 ∧
      ∀ i, i ≤ s → IsSample l lob y s m i (new[i]?) := by
  obtain ⟨out, hrun, hinv⟩ := forRange_inv
    (fun i (out : List (ℚ × ℚ)) => ∃ new, out = out0 ++ new ∧ new.length = i ∧
      ∀ i', i' < i → IsSample l lob y s m i' (new[i']?))
    (s + 1) (plotBody l lob y (2 / ((s : Int) : ℚ)) m)
    (by
      rintro i out hi ⟨new, rfl, hlen, hsamp⟩
      obtain ⟨line, hb, hline⟩ := plotBody_spec l lob y s hs hl m i hm (by omega)
        (out0 ++ new)
      refine ⟨out0 ++ new ++ [line], hb, new ++ [line], by simp, by simp [hlen], ?_⟩
      intro i' hi'
      by_cases hlt : i' < i
      · rw [List.getElem?_append_left (by omega)]
        exact hsamp i' hlt
      · have : i' = i := by omega
        subst this
        rw [List.getElem?_append_right (by omega), hlen]
        simpa using hline)
    0 out0 ⟨[], by simp, rfl, fun i' hi' => absurd hi' (by omega)⟩
  rw [max_eq_right (Nat.zero_le _)] at hinv
  obtain ⟨new, rfl, hlen, hsamp⟩ := hinv
  refine ⟨new, ?_, hlen, fun i hi => hsamp i (by omega)⟩
  have : (((s + 1 : Nat) : Int)) = (s : Int) + 1 := by push_cast; rfl
  rw [← this]
  exact hrun

theorem plot_solution_spec (l : Linearizer) (lob : Nat → ℚ → ℚ) (y : List ℚ) (s : Nat)
    (hs : 1 ≤ s) (hl : l.samplable y) :
    ∃ out, l.plot_solution lob y s = .ok out ∧ out.length = l.mesh.elems.length * (s + 1) ∧
      ∀ m i, m < l.mesh.elems.length → i ≤ s →
        IsSample l lob y s m i (out[m * (s + 1) + i]?) := by
  obtain ⟨out, hrun, hinv⟩ := forRange_inv
    (fun m (out : List (ℚ × ℚ)) => out.length = m * (s + 1) ∧
      ∀ m' i, m' < m → i ≤ s → IsSample l lob y s m' i (out[m' * (s + 1) + i]?))
    l.mesh.elems.length
    (fun m out => forRange 0 ((s : Int) + 1) (plotBody l lob y (2 / ((s : Int) : ℚ)) m) out)
    (by
      rintro m out hm ⟨hlen, hsamp⟩
      obtain ⟨new, hrun, hnl, hnew⟩ := plotInner_spec l lob y s hs hl m hm out
      refine ⟨out ++ new, hrun, by rw [List.length_append, hlen, hnl]; ring, ?_⟩
      intro m' i hm' hi
      by_cases hlt : m' < m
      · have h1 : (m' + 1) * (s + 1) ≤ m * (s + 1) := Nat.mul_le_mul_right _ (by omega)
        have h2 : (m' + 1) * (s + 1) = m' * (s + 1) + (s + 1) := by ring
        rw [List.getElem?_append_left (by omega)]
        exact hsamp m' i hlt hi
      · have : m' = m := by omega
        subst this
        rw [List.getElem?_append_right (by omega), hlen, Nat.add_sub_cancel_left]
        exact hnew i hi)
    0 [] ⟨by simp, fun m' i hm' _ => absurd hm' (by omega)⟩
  rw [max_eq_right (Nat.zero_le _)] at hinv
  refine ⟨out, ?_, hinv.1, fun m i hm hi => hinv.2 m i hm hi⟩
  unfold Linearizer.plot_solution
  rw [← hl.1]
  exact hrun

/-- C11: on a mesh with `n` elements that can be sampled with `y`, for every subdivision count
`s ≥ 1`, `plot_solution` writes exactly `n*(s+1)` lines, grouped by element in element order:
line `m*(s+1) + i` (`0 ≤ i ≤ s`) is the result of `eval_approx` on element `m` at the reference
coordinate `-1 + 2*i/s`, and its `x` is `v1 + (i/s)*(v2 - v1)`; the first line of each element
lies at its left vertex and the last at its right vertex. -/
theorem C11_plot_solution_samples (l : Linearizer) (lob : Nat → ℚ → ℚ) (y : List ℚ) (s : Nat)
    (hs : 1 ≤ s) (hl : l.samplable y) :
    ∃ out, l.plot_solution lob y s = .ok out ∧ out.length = l.mesh.elems.length * (s + 1) ∧
      ∀ m i : Nat, m < l.mesh.elems.length → i ≤ s →
        ∃ e a b x v, l.mesh.elems[m]? = some e ∧ l.mesh.vertices[e.v1]? = some a ∧
          l.mesh.vertices[e.v2]? = some b ∧
          l.eval_approx lob e (-1 + 2 * (i : ℚ) / (s : ℚ)) y = .ok (x, v) ∧
          out[m * (s + 1) + i]? = some (x, v) ∧
          x = a.x + (i : ℚ) / (s : ℚ) * (b.x - a.x) ∧ (i = 0 → x = a.x) ∧ (i = s → x = b.x) := by
  obtain ⟨out, hrun, hlen, hsamp⟩ := plot_solution_spec l lob y s hs hl
  exact ⟨out, hrun, hlen, hsamp⟩

/-- Instance of C11: the numbered mesh of three cubic elements, ten coefficients, two
subdivisions. -/
theorem C11_plot_solution_samples_witness :
    (1 ≤ 2 ∧ Linearizer.samplable ⟨cubicNumbered⟩ [1, 2, 3, 4, 5, 6, 7, 8, 9, 10]) ∧
    ∃ out, Linearizer.plot_solution ⟨cubicNumbered⟩ sampleBasis
        [1, 2, 3, 4, 5, 6, 7, 8, 9, 10] (2 : Nat) = .ok out ∧
      out.length = (Linearizer.mk cubicNumbered).mesh.elems.length * (2 + 1) ∧
      ∀ m i : Nat, m < (Linearizer.mk cubicNumbered).mesh.elems.length → i ≤ 2 →
        ∃ e a b x v, (Linearizer.mk cubicNumbered).mesh.elems[m]? = some e ∧
          (Linearizer.mk cubicNumbered).mesh.vertices[e.v1]? = some a ∧
          (Linearizer.mk cubicNumbered).mesh.vertices[e.v2]? = some b ∧
          Linearizer.eval_approx ⟨cubicNumbered⟩ sampleBasis e
            (-1 + 2 * (i : ℚ) / ((2 : Nat) : ℚ)) [1, 2, 3, 4, 5, 6, 7, 8, 9, 10] = .ok (x, v) ∧
          out[m * (2 + 1) + i]? = some (x, v) ∧
          x = a.x + (i : ℚ) / ((2 : Nat) : ℚ) * (b.x - a.x) ∧ (i = 0 → x = a.x) ∧
          (i = 2 → x = b.x) :=
  ⟨⟨by decide, by decide⟩,
    C11_plot_solution_samples ⟨cubicNumbered⟩ sampleBasis [1, 2, 3, 4, 5, 6, 7, 8, 9, 10] 2
      (by decide) (by decide)⟩

/-! ## The Newton loop of the drivers (C12, C13) -/

theorem newtonLoop_succ {M : Type} {N : Nat}
    (a : (Fin N → ℚ) → (Fin N → ℚ) → M × (Fin N → ℚ)) (s : M → (Fin N → ℚ) → (Fin N → ℚ))
    (q : ℚ → ℚ) (T : ℚ) (d : Nat → Bool) (fuel : Nat) (y res : Fin N → ℚ) (k : Nat) :
    newtonLoop a s q T d (fuel + 1) (y, res, k) =
      if d k then some (y, (a res y).2, k)
      else if q (sumSquares (a res y).2) < T then some (y, (a res y).2, k)
      else newtonLoop a s q T d fuel
        (fun i => y i + s (a res y).1 (fun i => (a res y).2 i * (-1)) i,
          s (a res y).1 (fun i => (a res y).2 i * (-1)), k + 1) := by
  simp only [newtonLoop]

/-- Every exit of the loop is one of its two `break`s, and the residual returned is the one
assembled at the iterate returned. -/
theorem newtonLoop_exit {M : Type} {N : Nat}
    (a : (Fin N → ℚ) → (Fin N → ℚ) → M × (Fin N → ℚ)) (s : M → (Fin N → ℚ) → (Fin N → ℚ))
    (q : ℚ → ℚ) (T : ℚ) (d : Nat → Bool) (fuel : Nat) (st : (Fin N → ℚ) × (Fin N → ℚ) × Nat)
    (y res : Fin N → ℚ) (k : Nat) (h : newtonLoop a s q T d fuel st = some (y, res, k)) :
    (∃ r, res = (a r y).2) ∧ (d k = true ∨ q (sumSquares res) < T) := by
  induction fuel generalizing st with
  | zero =>
    obtain ⟨y0, r0, k0⟩ := st
    simp [newtonLoop] at h
  | succ fuel ih =>
    obtain ⟨y0, r0, k0⟩ := st
    rw [newtonLoop_succ] at h
    by_cases hd : d k0 = true
    · rw [if_pos hd] at h
      simp only [Option.some.injEq, Prod.mk.injEq] at h
      obtain ⟨rfl, rfl, rfl⟩ := h
      exact ⟨⟨r0, rfl⟩, Or.inl hd⟩
    · rw [if_neg hd] at h
      by_cases ht : q (sumSquares (a r0 y0).2) < T
      · rw [if_pos ht] at h
        simp only [Option.some.injEq, Prod.mk.injEq] at h
        obtain ⟨rfl, rfl, rfl⟩ := h
        exact ⟨⟨r0, rfl⟩, Or.inr ht⟩
      · rw [if_neg ht] at h
        exact ih _ h

/-- C12, counterexample: the loop of `system_sin`, run with an assembler whose residual is 1 at
every iterate, a solver that returns its right-hand side, the rational square root and
`TOL = 1/100000`, exits on its third pass with `newton_iterations = 2` and a residual of norm
1, which is not below `TOL`. -/
theorem C12_system_sin_debug_exit :
    ∃ y res, system_sin_newton stuckAssemble (fun _ r => r) Rat.sqrt (1 / 100000)
        (fun _ => 0) 3 = some (y, res, 2) ∧
      res = (stuckAssemble res y).2 ∧ ¬ Rat.sqrt (sumSquares res) < 1 / 100000 := by
  have hq : Rat.sqrt (sumSquares (fun _ : Fin 1 => (1 : ℚ))) = 1 := by
    have h1 : sumSquares (fun _ : Fin 1 => (1 : ℚ)) = 1 * 1 := by simp [sumSquares]
    rw [h1, Rat.sqrt_eq]
    norm_num
  have hn : ¬ ((1 : ℚ) < 1 / 100000) := by norm_num
  refine ⟨fun _ => -2, fun _ => 1, ?_, rfl, by rw [hq]; exact hn⟩
  unfold system_sin_newton
  rw [newtonLoop_succ, newtonLoop_succ, newtonLoop_succ]
  simp only [stuckAssemble, hq, hn, if_false, beq_self_eq_true, if_true]
  simp only [Nat.reduceBEq, Bool.false_eq_true, if_false, zero_add, Nat.reduceAdd,
    Option.some.injEq, Prod.mk.injEq, and_true]
  funext i
  norm_num

/-- C12, amended: for every behaviour of the assembler and of the linear solver, and for each
driver on its own.  Whenever the Newton loop of `laplace_bc_newton2` exits, the residual it
holds is the one assembled at the final `y_prev` and its L2 norm is strictly below `TOL`; the
same holds whenever the loop of `system` exits.  The loop of `system_sin` has a second exit,
`if(newton_iterations == 2) break;`: whenever it exits, the residual it holds is the one
assembled at the final `y_prev`, and either its norm is strictly below `TOL` or
`newton_iterations` is 2. -/
theorem C12_newton_exits {M : Type} {N : Nat}
    (assemble : (Fin N → ℚ) → (Fin N → ℚ) → M × (Fin N → ℚ))
    (solve : M → (Fin N → ℚ) → (Fin N → ℚ)) (sqrt : ℚ → ℚ) (TOL : ℚ) (junk : Fin N → ℚ) :
    (∀ (fuel : Nat) (y res : Fin N → ℚ) (k : Nat),
      laplace_bc_newton2_newton assemble solve sqrt TOL junk fuel = some (y, res, k) →
        (∃ r, res = (assemble r y).2) ∧ sqrt (sumSquares res) < TOL) ∧
    (∀ (fuel : Nat) (y res : Fin N → ℚ) (k : Nat),
      system_newton assemble solve sqrt TOL junk fuel = some (y, res, k) →
        (∃ r, res = (assemble r y).2) ∧ sqrt (sumSquares res) < TOL) ∧
    (∀ (fuel : Nat) (y res : Fin N → ℚ) (k : Nat),
      system_sin_newton assemble solve sqrt TOL junk fuel = some (y, res, k) →
        (∃ r, res = (assemble r y).2) ∧ (sqrt (sumSquares res) < TOL ∨ k = 2)) := by
  refine ⟨fun fuel y res k h => ?_, fun fuel y res k h => ?_, fun fuel y res k h => ?_⟩
  · obtain ⟨a1, b1⟩ := newtonLoop_exit _ _ _ _ _ _ _ _ _ _ h
    refine ⟨a1, ?_⟩
    rcases b1 with hb | hb
    · simp at hb
    · exact hb
  · obtain ⟨a1, b1⟩ := newtonLoop_exit _ _ _ _ _ _ _ _ _ _ h
    refine ⟨a1, ?_⟩
    rcases b1 with hb | hb
    · simp at hb
    · exact hb
  · obtain ⟨a1, b1⟩ := newtonLoop_exit _ _ _ _ _ _ _ _ _ _ h
    refine ⟨a1, ?_⟩
    rcases b1 with hb | hb
    · right
      simpa using hb
    · left
      exact hb

theorem zero_newton_exit (d : Nat → Bool) (hd : d 0 = false) :
    newtonLoop zeroAssemble (fun _ r => r) Rat.sqrt (1 / 100000) d 1
      (fun _ => 0, fun _ => 0, 0) = some (fun _ => 0, fun _ => 0, 0) := by
  have hq : Rat.sqrt (sumSquares (fun _ : Fin 1 => (0 : ℚ))) = 0 := by
    have h1 : sumSquares (fun _ : Fin 1 => (0 : ℚ)) = 0 * 0 := by simp [sumSquares]
    rw [h1, Rat.sqrt_eq]
    norm_num
  have hn : ((0 : ℚ) < 1 / 100000) := by norm_num
  rw [newtonLoop_succ]
  simp only [zeroAssemble, hd, hq, hn, if_true]
  simp

theorem sumSquares_one (f : Fin 1 → ℚ) : sumSquares f = f 0 * f 0 := by
  simp [sumSquares]

/-- The run behind the second exit of `system_sin`: with a residual that stays at 1 the loop
leaves on its third pass, through the debug `break`. -/
theorem stuck_system_sin_run :
    system_sin_newton stuckAssemble (fun _ r => r) Rat.sqrt (1 / 100000) (fun _ => 0) 3 =
      some (fun _ => -2, fun _ => 1, 2) := by
  have hq : Rat.sqrt (sumSquares (fun _ : Fin 1 => (1 : ℚ))) = 1 := by
    rw [sumSquares_one, Rat.sqrt_eq]
    norm_num
  have hn : ¬ ((1 : ℚ) < 1 / 100000) := by norm_num
  unfold system_sin_newton
  rw [newtonLoop_succ, newtonLoop_succ, newtonLoop_succ]
  simp only [stuckAssemble, hq, hn, if_false, beq_self_eq_true, if_true]
  simp only [Nat.reduceBEq, Bool.false_eq_true, if_false, zero_add, Nat.reduceAdd,
    Option.some.injEq, Prod.mk.injEq, and_true, true_and]
  funext i
  norm_num

/-- The same collaborators in a loop without the debug `break` (`laplace_bc_newton2`,
`system`): the residual never falls below `TOL`, so the loop never exits. -/
theorem stuck_plain_loop_runs_on (fuel : Nat) (st : (Fin 1 → ℚ) × (Fin 1 → ℚ) × Nat) :
    newtonLoop stuckAssemble (fun _ r => r) Rat.sqrt (1 / 100000) (fun _ => false) fuel st =
      none := by
  have hq : Rat.sqrt (sumSquares (fun _ : Fin 1 => (1 : ℚ))) = 1 := by
    rw [sumSquares_one, Rat.sqrt_eq]
    norm_num
  have hn : ¬ ((1 : ℚ) < 1 / 100000) := by norm_num
  induction fuel generalizing st with
  | zero =>
    obtain ⟨y0, r0, k0⟩ := st
    simp [newtonLoop]
  | succ fuel ih =>
    obtain ⟨y0, r0, k0⟩ := st
    rw [newtonLoop_succ]
    simp only [stuckAssemble, hq, hn, if_false, Bool.false_eq_true]
    exact ih _

/-- One Newton step on the affine problem `F(y) = y - 1`: the first pass finds the norm 1, the
second pass finds the zero residual at `y_prev = 1` and exits through the tolerance test. -/
theorem unit_newton_run (d : Nat → Bool) (hd0 : d 0 = false) (hd1 : d 1 = false) :
    newtonLoop unitAssemble unitSolve Rat.sqrt (1 / 100000) d 3
      (fun _ => 0, fun _ => 0, 0) = some (fun _ => 1, fun _ => 0, 1) := by
  have ha : ∀ r y : Fin 1 → ℚ, (unitAssemble r y).2 = fun i => y i - 1 := by
    intro r y
    funext i
    simp [unitAssemble]
  have hq1 : Rat.sqrt (sumSquares (fun _ : Fin 1 => (0 : ℚ) - 1)) = 1 := by
    rw [sumSquares_one, Rat.sqrt_eq]
    norm_num
  have hn : ¬ ((1 : ℚ) < 1 / 100000) := by norm_num
  have hy : (fun i : Fin 1 => (0 : ℚ) + unitSolve (unitAssemble (fun _ => 0) (fun _ => 0)).1
      (fun i => ((0 : ℚ) - 1) * (-1)) i) = fun _ => 1 := by
    funext i
    simp [unitSolve]
  have hq0 : Rat.sqrt (sumSquares (fun _ : Fin 1 => (1 : ℚ) - 1)) = 0 := by
    rw [sumSquares_one, Rat.sqrt_eq]
    norm_num
  have hp : ((0 : ℚ) < 1 / 100000) := by norm_num
  rw [newtonLoop_succ, hd0]
  simp only [ha, hq1, hn, if_false, Bool.false_eq_true, hy]
  rw [newtonLoop_succ, hd1]
  simp only [ha, hq0, hp, if_true, if_false, Bool.false_eq_true, zero_add, Option.some.injEq,
    Prod.mk.injEq, and_true, true_and]
  funext i
  norm_num

/-- Instance of the amended C12, one unknown, the rational square root, `TOL = 1/100000`.  On
the affine problem `F(y) = y - 1` the loops of `laplace_bc_newton2` and of `system` exit after
one step through the tolerance test, with a zero residual.  With a residual that stays at 1
the loop of `system_sin` exits through its second exit, with `newton_iterations = 2`. -/
theorem C12_newton_exits_witness :
    (laplace_bc_newton2_newton unitAssemble unitSolve Rat.sqrt (1 / 100000) (fun _ => 0) 3
        = some (fun _ => 1, fun _ => 0, 1) ∧
      system_newton unitAssemble unitSolve Rat.sqrt (1 / 100000) (fun _ => 0) 3
        = some (fun _ => 1, fun _ => 0, 1) ∧
      system_sin_newton stuckAssemble (fun _ r => r) Rat.sqrt (1 / 100000) (fun _ => 0) 3
        = some (fun _ => -2, fun _ => 1, 2)) ∧
    (((∃ r, (fun _ => 0 : Fin 1 → ℚ) = (unitAssemble r (fun _ => 1)).2) ∧
        Rat.sqrt (sumSquares (fun _ => 0 : Fin 1 → ℚ)) < 1 / 100000) ∧
      ((∃ r, (fun _ => 0 : Fin 1 → ℚ) = (unitAssemble r (fun _ => 1)).2) ∧
        Rat.sqrt (sumSquares (fun _ => 0 : Fin 1 → ℚ)) < 1 / 100000) ∧
      ((∃ r, (fun _ => 1 : Fin 1 → ℚ) = (stuckAssemble r (fun _ => -2)).2) ∧
        (Rat.sqrt (sumSquares (fun _ => 1 : Fin 1 → ℚ)) < 1 / 100000 ∨ 2 = 2))) :=
  ⟨⟨unit_newton_run _ rfl rfl, unit_newton_run _ rfl rfl, stuck_system_sin_run⟩,
    (C12_newton_exits unitAssemble unitSolve Rat.sqrt (1 / 100000) (fun _ => 0)).1 3
      (fun _ => 1) (fun _ => 0) 1 (unit_newton_run _ rfl rfl),
    (C12_newton_exits unitAssemble unitSolve Rat.sqrt (1 / 100000) (fun _ => 0)).2.1 3
      (fun _ => 1) (fun _ => 0) 1 (unit_newton_run _ rfl rfl),
    (C12_newton_exits stuckAssemble (fun _ r => r) Rat.sqrt (1 / 100000) (fun _ => 0)).2.2 3
      (fun _ => -2) (fun _ => 1) 2 stuck_system_sin_run⟩

theorem sumSquares_zero {N : Nat} : sumSquares (fun _ : Fin N => (0 : ℚ)) = 0 := by
  simp [sumSquares]

/-- C13: over exact arithmetic let the assembler be affine, `F(y) = J*y - b` with the constant
Jacobian `J`, and let the solver solve `J*x = rhs` exactly for every right-hand side (so `J` is
non-singular).  Started at the zero vector, the Newton loop of `laplace_bc_newton2` exits, for
any `TOL > 0`, with a residual norm below `TOL`: with `newton_iterations = 0` and the zero
iterate if the norm of `F(0)` is already below `TOL`, and otherwise with
`newton_iterations = 1` and a residual that is the zero vector. -/
theorem C13_linear_problem_one_step {N : Nat} (J : Matrix (Fin N) (Fin N) ℚ) (b : Fin N → ℚ)
    (assemble : (Fin N → ℚ) → (Fin N → ℚ) → Matrix (Fin N) (Fin N) ℚ × (Fin N → ℚ))
    (solve : Matrix (Fin N) (Fin N) ℚ → (Fin N → ℚ) → (Fin N → ℚ)) (sqrt : ℚ → ℚ) (TOL : ℚ)
    (junk : Fin N → ℚ) (fuel : Nat)
    (hA : ∀ r y, assemble r y = (J, J.mulVec y - b))
    (hS : ∀ rhs, J.mulVec (solve J rhs) = rhs) (h0 : sqrt 0 = 0) (hT : 0 < TOL)
    (hf : 2 ≤ fuel) :
    ∃ y res k, laplace_bc_newton2_newton assemble solve sqrt TOL junk fuel = some (y, res, k) ∧
      res = J.mulVec y - b ∧ sqrt (sumSquares res) < TOL ∧
      ((sqrt (sumSquares (J.mulVec (fun _ => 0) - b)) < TOL ∧ k = 0 ∧ y = fun _ => 0) ∨
        (¬ sqrt (sumSquares (J.mulVec (fun _ => 0) - b)) < TOL ∧ k = 1 ∧ res = fun _ => 0)) := by
  obtain ⟨f, rfl⟩ : ∃ f, fuel = f + 2 := ⟨fuel - 2, by omega⟩
  unfold laplace_bc_newton2_newton
  rw [newtonLoop_succ]
  simp only [Bool.false_eq_true, if_false, hA]
  by_cases hlt : sqrt (sumSquares (J.mulVec (fun _ => 0) - b)) < TOL
  · rw [if_pos hlt]
    exact ⟨_, _, _, rfl, rfl, hlt, Or.inl ⟨hlt, rfl, rfl⟩⟩
  · rw [if_neg hlt, newtonLoop_succ]
    simp only [Bool.false_eq_true, if_false, hA]
    obtain ⟨rhs, hrhs⟩ : ∃ rhs : Fin N → ℚ,
        rhs = fun i => (J.mulVec (fun _ => 0) - b) i * (-1) := ⟨_, rfl⟩
    rw [← hrhs]
    have hy : (fun i => (0 : ℚ) + solve J rhs i) = solve J rhs := by
      funext i
      simp
    rw [hy]
    have hz : J.mulVec (fun _ => (0 : ℚ)) = 0 := Matrix.mulVec_zero J
    have hres : J.mulVec (solve J rhs) - b = fun _ => 0 := by
      rw [hS rhs, hrhs, hz]
      funext i
      simp
    have hnorm : sqrt (sumSquares (J.mulVec (solve J rhs) - b)) < TOL := by
      rw [hres, sumSquares_zero, h0]
      exact hT
    rw [if_pos hnorm]
    exact ⟨_, _, _, rfl, rfl, hnorm, Or.inr ⟨hlt, rfl, hres⟩⟩

/-- Instance of C13: one unknown, `J` the identity, `b = 1`, the rational square root,
`TOL = 1/100000`, three passes of fuel. -/
theorem C13_linear_problem_one_step_witness :
    ((∀ r y : Fin 1 → ℚ, unitAssemble r y =
        ((1 : Matrix (Fin 1) (Fin 1) ℚ),
          Matrix.mulVec (1 : Matrix (Fin 1) (Fin 1) ℚ) y - fun _ => (1 : ℚ))) ∧
      (∀ rhs : Fin 1 → ℚ,
        Matrix.mulVec (1 : Matrix (Fin 1) (Fin 1) ℚ) (unitSolve 1 rhs) = rhs) ∧
      Rat.sqrt 0 = 0 ∧ (0 : ℚ) < 1 / 100000 ∧ 2 ≤ 3) ∧
    ∃ y res k, laplace_bc_newton2_newton unitAssemble unitSolve Rat.sqrt (1 / 100000)
        (fun _ => 0) 3 = some (y, res, k) ∧
      res = Matrix.mulVec (1 : Matrix (Fin 1) (Fin 1) ℚ) y - (fun _ => (1 : ℚ)) ∧
      Rat.sqrt (sumSquares res) < 1 / 100000 ∧
      ((Rat.sqrt (sumSquares (Matrix.mulVec (1 : Matrix (Fin 1) (Fin 1) ℚ) (fun _ => 0) -
            (fun _ => (1 : ℚ)))) < 1 / 100000 ∧ k = 0 ∧ y = fun _ => 0) ∨
        (¬ Rat.sqrt (sumSquares (Matrix.mulVec (1 : Matrix (Fin 1) (Fin 1) ℚ) (fun _ => 0) -
            (fun _ => (1 : ℚ)))) < 1 / 100000 ∧ k = 1 ∧ res = fun _ => 0)) :=
  have hq0 : Rat.sqrt 0 = 0 := by
    have h := Rat.sqrt_eq 0
    rw [mul_zero, abs_zero] at h
    exact h
  ⟨⟨fun _ _ => rfl, fun rhs => Matrix.one_mulVec rhs, hq0, by norm_num, by decide⟩,
    C13_linear_problem_one_step 1 (fun _ => 1) unitAssemble unitSolve Rat.sqrt (1 / 100000)
      (fun _ => 0) 3 (fun _ _ => rfl) (fun rhs => Matrix.one_mulVec rhs) hq0 (by norm_num)
      (by decide)⟩

end Hermes1d
